import Mathlib

/-!
# filebeat: log-entry parser, deduplication key, index set-up and directory pass

A shallow embedding of `parser/parser.go`, `handler/handler.go`, `index/index.go`
and `util/util.go`, followed by theorems about the embedded functions.

Conventions of the embedding.

* A Go `string` / `[]byte` is a `GoString`: the list of its bytes, each byte written
  as the character with that code, so `len(s)` is `s.length`.  String literals in
  examples are ASCII.
* A Go `error` is an `Option Error`; `none` is `nil`.
* Go `int` values (byte counts, offsets) are `Nat`: they are never negative here, and
  the wrap-around of the 64-bit `int` is not modelled.
* Pointers to a `ParseLogEntry` that is mutated in place become values that are
  returned and rebound.
-/

namespace Filebeat

/-! ## Strings and errors -/

/-- A Go string: its bytes in order, one character per byte. -/
abbrev GoString := List Char

/-- A Go `error` value other than `nil`. -/
inductive Error where
  | EOF : Error
  | other : GoString → Error
  deriving DecidableEq, Repr

/-! ## Character classes of Go regular expressions (RE2 syntax, ASCII only) -/

/-- The class `[0-9]`. -/
def isDigit (c : Char) : Bool := decide (48 ≤ c.toNat) && decide (c.toNat ≤ 57)

/-- The Perl class `\s`, which in RE2 is `[\t\n\f\r ]`. -/
def isSpace (c : Char) : Bool :=
  c.toNat == 9 || c.toNat == 10 || c.toNat == 12 || c.toNat == 13 || c.toNat == 32

/-- The Perl class `\w`, which in RE2 is `[0-9A-Za-z_]`. -/
def isWord (c : Char) : Bool :=
  isDigit c || (decide (65 ≤ c.toNat) && decide (c.toNat ≤ 90))
    || (decide (97 ≤ c.toNat) && decide (c.toNat ≤ 122)) || c.toNat == 95

/-- The class `[0-9:.]`. -/
def isTimeChar (c : Char) : Bool := isDigit c || c == ':' || c == '.'

/-- The class `[\w.]`. -/
def isFileChar (c : Char) : Bool := isWord c || c == '.'

/-- The class `[IWEF]`. -/
def isSeverityChar (c : Char) : Bool := c == 'I' || c == 'W' || c == 'E' || c == 'F'

/-- The class `.` (no `s` flag): every byte but the line feed. -/
def isDot (c : Char) : Bool := c.toNat != 10

/-! ## `entryLineRe`

`^([IWEF])([0-9]{4}\s[0-9:.]+)\s+([\w])\s([\w.]+:[0-9]+)\]\s(.*)?`

Every repetition in this expression is over a class that excludes the character
that has to follow it, so the leftmost-first match, when there is one, is found by
taking each repetition as long as possible; no backtracking is involved. -/

/-- The five capture groups of `entryLineRe` (`matches[1]` .. `matches[5]`). -/
structure EntryMatch where
  severity : GoString
  time : GoString
  threadId : GoString
  entryPoint : GoString
  message : GoString
  deriving DecidableEq, Repr

/-- `\]\s(.*)?` after the entry point. -/
def matchTail (sev time tid ep : GoString) : GoString → Option EntryMatch
  | b :: s :: rest =>
    if b == ']' && isSpace s then
      some ⟨sev, time, tid, ep, rest.takeWhile isDot⟩
    else none
  | _ => none

/-- `([\w.]+:[0-9]+)` and what follows it. -/
def matchEntryPoint (sev time tid : GoString) (l : GoString) : Option EntryMatch :=
  let file := l.takeWhile isFileChar
  match l.dropWhile isFileChar with
  | c :: rest =>
    let num := rest.takeWhile isDigit
    if file ≠ [] ∧ c = ':' ∧ num ≠ [] then
      matchTail sev time tid (file ++ ':' :: num) (rest.dropWhile isDigit)
    else none
  | [] => none

/-- `\s+([\w])\s` and what follows it. -/
def matchThread (sev time : GoString) (l : GoString) : Option EntryMatch :=
  let ws := l.takeWhile isSpace
  match l.dropWhile isSpace with
  | w :: s :: rest =>
    if ws ≠ [] ∧ isWord w = true ∧ isSpace s = true then
      matchEntryPoint sev time [w] rest
    else none
  | _ => none

/-- `entryLineRe.FindStringSubmatch(line)`: `some` of the capture groups when the
expression matches (the Go result has length 6), `none` when it does not (the Go
result is `nil`). -/
def entryLineRe : GoString → Option EntryMatch
  | c :: d1 :: d2 :: d3 :: d4 :: s :: rest =>
    let t := rest.takeWhile isTimeChar
    if isSeverityChar c && isDigit d1 && isDigit d2 && isDigit d3 && isDigit d4
        && isSpace s && !t.isEmpty then
      matchThread [c] (d1 :: d2 :: d3 :: d4 :: s :: t) (rest.dropWhile isTimeChar)
    else none
  | _ => none

/-! ## `time.Time`

A `Time` is an instant together with the zone it is shown in.  The instant is kept
as its UTC calendar reading (proleptic Gregorian, nanosecond resolution); two
`Time`s denote the same instant exactly when these readings agree.  `offset` is the
zone offset, in seconds east of UTC, that `Year` and `Month` apply.  Values built by
`time.Parse` without zone information are in UTC (`offset = 0`); `time.Now` gives
the local zone.  The fields of a `Time` of the program are a date and a time of day of
the calendar. -/

structure Time where
  year : Int
  month : Nat
  day : Nat
  hour : Nat
  minute : Nat
  second : Nat
  nsec : Nat
  offset : Int
  deriving DecidableEq, Repr

/-- Gregorian leap-year rule (`time.isLeap`). -/
def isLeap (year : Int) : Bool :=
  year % 4 == 0 && (year % 100 != 0 || year % 400 == 0)

/-- Number of days of a month in a year (`time.daysIn`). -/
def daysIn (month : Nat) (year : Int) : Nat :=
  if month = 2 then (if isLeap year then 29 else 28)
  else if month = 4 ∨ month = 6 ∨ month = 9 ∨ month = 11 then 30
  else 31

/-- Day number of a calendar date, counted from 1970-01-01. -/
def daysFromCivil (y : Int) (m d : Nat) : Int :=
  let y1 : Int := if m ≤ 2 then y - 1 else y
  let era : Int := y1 / 400
  let yoe : Int := y1 - era * 400
  let mp : Int := if 2 < m then (m : Int) - 3 else (m : Int) + 9
  let doy : Int := (153 * mp + 2) / 5 + (d : Int) - 1
  let doe : Int := yoe * 365 + yoe / 4 - yoe / 100 + doy
  era * 146097 + doe - 719468

/-- Year and month of a day number counted from 1970-01-01. -/
def civilFromDays (z : Int) : Int × Nat :=
  let z1 : Int := z + 719468
  let era : Int := z1 / 146097
  let doe : Int := z1 - era * 146097
  let yoe : Int := (doe - doe / 1460 + doe / 36524 - doe / 146096) / 365
  let doy : Int := doe - (365 * yoe + yoe / 4 - yoe / 100)
  let mp : Int := (5 * doy + 2) / 153
  let m : Int := if mp < 10 then mp + 3 else mp - 9
  (yoe + era * 400 + (if m ≤ 2 then 1 else 0), m.toNat)

/-- Year and month of the instant as read in the zone of `t`. -/
def Time.zoneYearMonth (t : Time) : Int × Nat :=
  if t.offset = 0 then (t.year, t.month)
  else
    let secs : Int := (t.hour : Int) * 3600 + (t.minute : Int) * 60 + (t.second : Int) + t.offset
    civilFromDays (daysFromCivil t.year t.month t.day + secs / 86400)

/-- `t.Year()`. -/
def Time.Year (t : Time) : Int := t.zoneYearMonth.1

/-- `t.Month()`. -/
def Time.Month (t : Time) : Nat := t.zoneYearMonth.2

/-- `t.UTC()`: the same instant, shown in UTC. -/
def Time.UTC (t : Time) : Time := { t with offset := 0 }

/-- `t.Before(u)`: the instant of `t` is earlier than that of `u`. -/
def Time.Before (t u : Time) : Bool :=
  decide (t.year < u.year) || (decide (t.year = u.year) &&
   (decide (t.month < u.month) || (decide (t.month = u.month) &&
    (decide (t.day < u.day) || (decide (t.day = u.day) &&
     (decide (t.hour < u.hour) || (decide (t.hour = u.hour) &&
      (decide (t.minute < u.minute) || (decide (t.minute = u.minute) &&
       (decide (t.second < u.second) || (decide (t.second = u.second) &&
        decide (t.nsec < u.nsec))))))))))))

/-! ## Decimal rendering and `time.Parse` for the entry layout -/

/-- The character of a decimal digit. -/
def digitChar (d : Nat) : Char := Char.ofNat (48 + d)

/-- The value of a decimal digit character. -/
def digitVal (c : Char) : Nat := c.toNat - 48

/-- Decimal digits of `n`, most significant first, in front of `acc`; `fuel` bounds
the number of digits. -/
def decimalAux : Nat → Nat → GoString → GoString
  | 0, _, acc => acc
  | fuel + 1, n, acc =>
    if n < 10 then digitChar n :: acc
    else decimalAux fuel (n / 10) (digitChar (n % 10) :: acc)

/-- Decimal rendering of a natural number (`strconv.FormatUint(n, 10)`). -/
def decimal (n : Nat) : GoString := decimalAux (n + 1) n []

/-- `strconv.Itoa`. -/
def Itoa (i : Int) : GoString :=
  if i < 0 then '-' :: decimal i.natAbs else decimal i.natAbs

/-- `getnum` of package `time`: a one- or two-digit number, exactly two digits when
`fixed`. -/
def getnum (s : GoString) (fixed : Bool) : Option (Nat × GoString) :=
  match s with
  | c1 :: c2 :: rest =>
    if isDigit c1 then
      if isDigit c2 then some (digitVal c1 * 10 + digitVal c2, rest)
      else if fixed then none else some (digitVal c1, c2 :: rest)
    else none
  | [c1] => if isDigit c1 && !fixed then some (digitVal c1, []) else none
  | [] => none

/-- Value of a string of decimal digits, `none` when some character is not a digit. -/
def digitsVal : GoString → Option Nat
  | [] => some 0
  | l => if l.all isDigit then some (l.foldl (fun acc c => acc * 10 + digitVal c) 0) else none

/-- `skip(value, " ")` of package `time`: a space of the layout stands for any
number of spaces of the value, none included. -/
def skipSpace (value : GoString) : Option GoString :=
  match value with
  | [] => some []
  | c :: _ => if c = ' ' then some (value.dropWhile (fun x => x == ' ')) else none

/-- `skip(value, ":")` of package `time`. -/
def skipColon (value : GoString) : Option GoString :=
  match value with
  | c :: rest => if c = ':' then some rest else none
  | [] => none

/-- The fractional second `.000000` of the layout, as `parseNanoseconds` reads it: a
period or a comma (`commaOrPeriod`, Go 1.17 and later; a header time string never
holds a comma) and six characters read by `atoi`, which lets a sign stand for the
first of them; a negative value is out of range.  The result is in nanoseconds. -/
def parseFraction (value : GoString) : Option (Nat × GoString) :=
  match value with
  | p :: a :: b :: c :: d :: e :: f :: rest =>
    if p ≠ '.' ∧ p ≠ ',' then none
    else if a = '+' then (digitsVal [b, c, d, e, f]).map (fun n => (n * 1000, rest))
    else if a = '-' then
      match digitsVal [b, c, d, e, f] with
      | some 0 => some (0, rest)
      | _ => none
    else (digitsVal [a, b, c, d, e, f]).map (fun n => (n * 1000, rest))
  | _ => none

/-- `time.Parse(entryTimestampLayout, value)` for the layout
`entryTimestampLayout = "20060102 15:04:05.000000"`: a year of four digits, a month and
a day of two digits each, spaces, an hour of one or two digits, minute and second of
two digits, the fraction, and nothing after it; the fields have to be in range and the
day has to exist in the month of the year.  The result is in UTC. -/
def parseEntryTimestamp (value : GoString) : Option Time :=
  match value with
  | y1 :: y2 :: y3 :: y4 :: v1 =>
    match digitsVal [y1, y2, y3, y4] with
    | none => none
    | some year =>
    match getnum v1 true with
    | none => none
    | some (month, v2) =>
    match getnum v2 true with
    | none => none
    | some (day, v3) =>
    match skipSpace v3 with
    | none => none
    | some v4 =>
    match getnum v4 false with
    | none => none
    | some (hour, v5) =>
    match skipColon v5 with
    | none => none
    | some v6 =>
    match getnum v6 true with
    | none => none
    | some (minute, v7) =>
    match skipColon v7 with
    | none => none
    | some v8 =>
    match getnum v8 true with
    | none => none
    | some (second, v9) =>
    match parseFraction v9 with
    | none => none
    | some (nsec, v10) =>
      if 1 ≤ month ∧ month ≤ 12 ∧ hour < 24 ∧ minute < 60 ∧ second < 60 ∧ v10 = []
          ∧ 1 ≤ day ∧ day ≤ daysIn month (year : Int) then
        some ⟨(year : Int), month, day, hour, minute, second, nsec, 0⟩
      else none
  | _ => none

/-! ## `parser/parser.go` -/

/-- The struct `LogFile`.  Its field `Entries` is created empty and never used, and is
left out. -/
structure LogFile where
  FileName : GoString
  FilePath : GoString
  FileDate : Time
  Container : GoString
  deriving DecidableEq, Repr

/-- The struct `ParseLogEntry`. -/
structure ParseLogEntry where
  Severity : GoString
  Timestamp : Time
  ThreadId : GoString
  EntryPoint : GoString
  MessageLines : List GoString
  LogFile : LogFile
  bytesRead : Nat
  deriving DecidableEq, Repr

def Severity_Info : GoString := "INFO".toList
def Severity_Warning : GoString := "WARNING".toList
def Severity_Error : GoString := "ERROR".toList
def Severity_Fatal : GoString := "FATAL".toList

/-- The function `logEntrySeverityLevel`. -/
def logEntrySeverityLevel (severityString : GoString) : GoString :=
  if severityString = ['I'] then Severity_Info
  else if severityString = ['W'] then Severity_Warning
  else if severityString = ['E'] then Severity_Error
  else if severityString = ['F'] then Severity_Fatal
  else Severity_Info

/-- `time.Parse(entryTimestampLayout, Itoa(year) + timeString)`. -/
def parseInYear (year : Int) (timeString : GoString) : Option Time :=
  parseEntryTimestamp (Itoa year ++ timeString)

/-- The function `logEntryTimestamp`.  The pair `(timestamp, err)` of the source is an
`Option Time`; the last `if` turns an error into the previous timestamp. -/
def logEntryTimestamp (prevEntryTimestamp : Time) (timeString : GoString) : Time :=
  let r1 := parseInYear prevEntryTimestamp.Year timeString
  let r2 :=
    match r1 with
    | some timestamp =>
      if prevEntryTimestamp.Month > timestamp.Month then
        parseInYear (prevEntryTimestamp.Year + 1) timeString
      else r1
    | none => r1
  match r2 with
  | some timestamp => timestamp
  | none => prevEntryTimestamp

/-- What a call of `parseLine` leaves behind: the entry the caller passed, after the
in-place updates of the two continuation branches (`currentEntry`), the returned
entry (`resultEntry`) and the returned flag.  In the continuation branches the
returned pointer is the caller's entry itself. -/
structure ParseLineResult where
  currentEntry : ParseLogEntry
  resultEntry : ParseLogEntry
  isNewEntry : Bool
  deriving DecidableEq, Repr

/-- The method `Parser.parseLine`.  `none` is the run-time panic of indexing
`MessageLines[len-1]` in an empty slice. -/
def parseLine (currentEntry : ParseLogEntry) (line : GoString) (forceContinueEntry : Bool) :
    Option ParseLineResult :=
  if forceContinueEntry then
    match currentEntry.MessageLines.getLast? with
    | none => none
    | some last =>
      let e := { currentEntry with
        MessageLines := currentEntry.MessageLines.dropLast ++ [last ++ line]
        bytesRead := currentEntry.bytesRead + line.length }
      some ⟨e, e, false⟩
  else
    match entryLineRe line with
    | none =>
      let e := { currentEntry with
        MessageLines := currentEntry.MessageLines ++ [line]
        bytesRead := currentEntry.bytesRead + (line.length + 1) }
      some ⟨e, e, false⟩
    | some submatches =>
      some ⟨currentEntry,
        { Severity := logEntrySeverityLevel submatches.severity
          Timestamp := logEntryTimestamp currentEntry.Timestamp submatches.time
          ThreadId := submatches.threadId
          EntryPoint := submatches.entryPoint
          MessageLines := [submatches.message]
          LogFile := currentEntry.LogFile
          bytesRead := line.length + 1 },
        true⟩

/-! ## `bufio.Reader` over the bytes of a file -/

/-- Size of the buffer of `bufio.NewReader`. -/
def defaultBufSize : Nat := 4096

/-- A `bufio.Reader`: the size of its buffer and the bytes of the underlying file that
have not been returned yet.  Reading the file itself never fails; at its end every
read reports `io.EOF`. -/
structure Reader where
  size : Nat
  data : GoString
  deriving DecidableEq, Repr

/-- `bufio.NewReader`. -/
def NewReader (data : GoString) : Reader := ⟨defaultBufSize, data⟩

/-- `reader.Discard(n)`: skips `n` bytes, or all of them when fewer are left. -/
def Reader.Discard (r : Reader) (n : Nat) : Reader := { r with data := r.data.drop n }

/-- The three results of `reader.ReadLine()`. -/
structure ReadLineResult where
  line : GoString
  isPrefix : Bool
  err : Option Error
  deriving DecidableEq, Repr

/-- The line-end removal of `ReadLine`: `line` is a line without its final line feed;
a final carriage return goes too. -/
def dropCR (line : GoString) : GoString :=
  if line.getLast? = some '\r' then line.dropLast else line

/-- `reader.ReadLine()`.  When a line feed is among the next `size` bytes the line
before it is returned, without the `\n` or `\r\n`.  Otherwise, when `size` bytes are
there, the buffer is full: they are returned with `isPrefix` set, and a final `\r`
stays in the reader.  Otherwise the rest of the file is returned as the last line, or
`io.EOF` when nothing is left. -/
def Reader.ReadLine (r : Reader) : ReadLineResult × Reader :=
  let head := r.data.take r.size
  if '\n' ∈ head then
    let line := head.takeWhile (fun c => c != '\n')
    (⟨dropCR line, false, none⟩, { r with data := r.data.drop (line.length + 1) })
  else if r.size ≤ r.data.length then
    if head.getLast? = some '\r' then
      (⟨head.dropLast, true, none⟩, { r with data := r.data.drop (r.size - 1) })
    else
      (⟨head, true, none⟩, { r with data := r.data.drop r.size })
  else if r.data = [] then
    (⟨[], false, some Error.EOF⟩, r)
  else
    (⟨r.data, false, none⟩, { r with data := [] })

/-! ## `Parser.parseLines` -/

/-- The struct `Parser`, for a handler that works on a state `σ`.  The field
`isActive` is not part of it: `NewParser` sets it, only `Stop` clears it, from
another goroutine, and the functions below take the number of times the loop
condition still finds it set. -/
structure Parser (σ : Type) where
  handleLogEntry : ParseLogEntry → σ → Option Error × σ

/-- The local variables of `parseLines`. -/
structure LoopState where
  currentEntry : ParseLogEntry
  bytesRead : Nat
  forceContinueEntry : Bool
  reader : Reader
  deriving DecidableEq, Repr

/-- Where `parseLines` stands: it has returned, it is at the head of its loop with
`isActive` set, or it has panicked. -/
inductive Outcome (σ : Type) where
  | returned : Nat → Option Error → σ → Outcome σ
  | running : LoopState → σ → Outcome σ
  | panicked : Outcome σ
  deriving DecidableEq, Repr

/-- One pass through the body of `for p.isActive { ... }`.  The `break` of the
`io.EOF` case leaves the `switch`, not the loop. -/
def parseLinesStep {σ : Type} (p : Parser σ) (st : LoopState) (s : σ) : Outcome σ :=
  match st.reader.ReadLine with
  | (⟨line, isPrefix, none⟩, reader) =>
    match parseLine st.currentEntry line st.forceContinueEntry with
    | none => Outcome.panicked
    | some r =>
      if r.isNewEntry then
        match p.handleLogEntry r.currentEntry s with
        | (some err, s1) => Outcome.returned st.bytesRead (some err) s1
        | (none, s1) =>
          Outcome.running
            { currentEntry := r.resultEntry
              bytesRead := st.bytesRead + r.currentEntry.bytesRead
              forceContinueEntry := isPrefix
              reader := reader } s1
      else
        Outcome.running
          { currentEntry := r.currentEntry
            bytesRead := st.bytesRead
            forceContinueEntry := isPrefix
            reader := reader } s
  | (⟨_, _, some Error.EOF⟩, reader) =>
    match p.handleLogEntry st.currentEntry s with
    | (some err, s1) => Outcome.returned st.bytesRead (some err) s1
    | (none, s1) =>
      Outcome.running
        { st with bytesRead := st.bytesRead + st.currentEntry.bytesRead, reader := reader } s1
  | (⟨_, _, some err⟩, _) => Outcome.returned st.bytesRead (some err) s

/-- The loop of `parseLines` while `isActive` is found set `n` more times. -/
def parseLinesLoop {σ : Type} (p : Parser σ) : Nat → LoopState → σ → Outcome σ
  | 0, st, s => Outcome.running st s
  | n + 1, st, s =>
    match parseLinesStep p st s with
    | Outcome.running st1 s1 => parseLinesLoop p n st1 s1
    | o => o

/-- The accumulator `parseLines` starts with. -/
def initialEntry (currentFile : LogFile) : ParseLogEntry :=
  { Severity := Severity_Info
    Timestamp := currentFile.FileDate
    ThreadId := []
    EntryPoint := []
    MessageLines := []
    LogFile := currentFile
    bytesRead := 0 }

/-- The local variables of `parseLines` before the loop. -/
def initialState (currentFile : LogFile) (reader : Reader) : LoopState :=
  { currentEntry := initialEntry currentFile
    bytesRead := 0
    forceContinueEntry := false
    reader := reader }

/-- The method `Parser.parseLines`, when the loop condition finds `isActive` set
`active` times and cleared after that (`Stop` was called): the loop is then left by
its condition, which returns `bytesRead, nil`. -/
def parseLines {σ : Type} (p : Parser σ) (currentFile : LogFile) (reader : Reader)
    (active : Nat) (s : σ) : Outcome σ :=
  match parseLinesLoop p active (initialState currentFile reader) s with
  | Outcome.running st s1 => Outcome.returned st.bytesRead none s1
  | o => o

/-- An open `os.File`: its name and its bytes. -/
structure File where
  Name : GoString
  content : GoString
  deriving DecidableEq, Repr

/-- The method `Parser.ParseLogFile`.  `NewLogFile`, which reads the clock and the
file name, is the parameter `newLogFile`. -/
def ParseLogFile {σ : Type} (p : Parser σ) (newLogFile : File → LogFile) (file : File)
    (discardOffset : Nat) (active : Nat) (s : σ) : Outcome σ :=
  let currentFile := newLogFile file
  let reader := (NewReader file.content).Discard discardOffset
  parseLines p currentFile reader active s

/-- The number of loop conditions of `parseLines` that are still to find `isActive`
set once `parseLinesLoop p n st s` is over: none when the loop ran `n` times. -/
def parseLinesLeft {σ : Type} (p : Parser σ) : Nat → LoopState → σ → Nat
  | 0, _, _ => 0
  | n + 1, st, s =>
    match parseLinesStep p st s with
    | Outcome.running st1 s1 => parseLinesLeft p n st1 s1
    | _ => n

/-! ## `util/util.go` -/

/-- `appendInt(b, x, width)` of package `time` for `x ≥ 0`: decimal digits, with zeros
in front up to `width`. -/
def zeroPad (width n : Nat) : GoString :=
  List.replicate (width - (decimal n).length) '0' ++ decimal n

/-- The year of a formatted time: at least four digits, a minus sign in front of them
for a negative year. -/
def formatYear (y : Int) : GoString :=
  if y < 0 then '-' :: zeroPad 4 y.natAbs else zeroPad 4 y.natAbs

/-- The function `StringUTC`: `t.UTC().Format("2006-01-02T15:04:05.000000000Z07:00")`.
In UTC the zone `Z07:00` is the letter `Z`. -/
def StringUTC (t : Time) : GoString :=
  let u := t.UTC
  formatYear u.year ++ '-' :: zeroPad 2 u.month ++ '-' :: zeroPad 2 u.day ++ 'T' ::
    zeroPad 2 u.hour ++ ':' :: zeroPad 2 u.minute ++ ':' :: zeroPad 2 u.second ++ '.' ::
    zeroPad 9 u.nsec ++ ['Z']

/-- The loop of `Retry` once an attempt is due and `more` further attempts may follow
it. -/
def RetryLoop {σ : Type} (fn : σ → Option Error × σ) : Nat → σ → Option Error × σ
  | 0, s => fn s
  | more + 1, s =>
    match fn s with
    | (none, s1) => (none, s1)
    | (some _, s1) => RetryLoop fn more s1

/-- The function `Retry` (the sleep between attempts is not modelled): `fn` is tried
until it succeeds, `attempts` times at most and once at least. -/
def Retry {σ : Type} (attempts : Int) (fn : σ → Option Error × σ) (s : σ) : Option Error × σ :=
  RetryLoop fn (attempts - 1).toNat s

/-! ## `handler/handler.go` -/

/-- The struct `index.IndexLogEntry`. -/
structure IndexLogEntry where
  Key : GoString
  Severity : GoString
  Timestamp : Time
  EntryPoint : GoString
  FileName : GoString
  ContainerName : GoString
  Message : GoString
  deriving DecidableEq, Repr

/-- The struct `metadata.FileMetadata`. -/
structure FileMetadata where
  Path : GoString
  LastModified : Time
  Discard : Nat
  deriving DecidableEq, Repr

/-- What `handleFile` uses of an `os.FileInfo`. -/
structure FileInfo where
  IsDir : Bool
  ModTime : Time
  deriving DecidableEq, Repr

/-- The 32-bit FNV-1a hash (`fnv.New32a`, `Write`, `Sum32`). -/
def fnv32a (s : GoString) : Nat :=
  s.foldl (fun h c => ((h ^^^ c.toNat) * 16777619) % 4294967296) 2166136261

/-- The function `hash`. -/
def hash (s : GoString) : GoString := decimal (fnv32a s)

/-- `strings.Join(lines, "\n")`. -/
def joinLines (lines : List GoString) : GoString := ['\n'].intercalate lines

/-- The key `addEntryToLog` gives an entry. -/
def entryKey (entry : ParseLogEntry) : GoString :=
  StringUTC entry.Timestamp ++ '/' :: hash (joinLines entry.MessageLines)

/-- The document `addEntryToLog` builds. -/
def indexLogEntry (entry : ParseLogEntry) : IndexLogEntry :=
  { Key := entryKey entry
    Severity := entry.Severity
    Timestamp := entry.Timestamp
    EntryPoint := entry.EntryPoint
    FileName := entry.LogFile.FileName
    ContainerName := entry.LogFile.Container
    Message := joinLines entry.MessageLines }

/-- What a handler acts on: the documents the index has taken, oldest first; the records
of the metadata bucket, latest first; the files that can be opened, by path; and the
number of loop conditions of the parser that will still find `isActive` set. -/
structure World where
  index : List IndexLogEntry
  metadata : List FileMetadata
  files : List (GoString × GoString)
  active : Nat
  deriving DecidableEq, Repr

/-- The struct `Handler`, as far as `handle` uses it: the file pattern (whether
`filePattern.FindString` finds a non-empty match), `NewLogFile`, and which requests
the index and the metadata storage refuse. -/
structure Handler where
  filePattern : GoString → Bool
  newLogFile : File → LogFile
  indexFails : IndexLogEntry → Option Error
  storeFails : FileMetadata → Option Error

/-- The method `LogIndex.AddEntry`. -/
def AddEntry (h : Handler) (entry : IndexLogEntry) (w : World) : Option Error × World :=
  match h.indexFails entry with
  | some err => (some err, w)
  | none => (none, { w with index := w.index ++ [entry] })

/-- The method `LogMetadataStorage.GetFileMetadata`: an error when the bucket has no
record of the path. -/
def GetFileMetadata (w : World) (path : GoString) : Option FileMetadata :=
  w.metadata.find? (fun m => m.Path == path)

/-- The method `LogMetadataStorage.SetFileMetadata`. -/
def SetFileMetadata (h : Handler) (m : FileMetadata) (w : World) : Option Error × World :=
  match h.storeFails m with
  | some err => (some err, w)
  | none => (none, { w with metadata := m :: w.metadata.filter (fun x => x.Path != m.Path) })

/-- The method `Handler.addEntryToLog`. -/
def addEntryToLog (h : Handler) (entry : ParseLogEntry) (w : World) : Option Error × World :=
  AddEntry h (indexLogEntry entry) w

/-- The method `Handler.handleLogEntry`. -/
def handleLogEntry (h : Handler) (entry : ParseLogEntry) (w : World) : Option Error × World :=
  if entry.MessageLines.length > 0 then addEntryToLog h entry w else (none, w)

/-- `parser.NewParser(h.handleLogEntry)`. -/
def Handler.parser (h : Handler) : Parser World := ⟨handleLogEntry h⟩

/-- `os.Open`: the file of the path when `files` has its bytes, an error otherwise. -/
def osOpen (w : World) (path : GoString) : Except Error File :=
  match w.files.lookup path with
  | some content => Except.ok ⟨path, content⟩
  | none => Except.error (Error.other ("open: permission denied".toList))

/-- The method `Handler.handleFile`; `none` is a panic of the parser.  `ParseLogFile`
is run as `w.active` says, and what is left of `w.active` goes on to the next call. -/
def handleFile (h : Handler) (path : GoString) (info : FileInfo) (w : World) :
    Option (Option Error × World) :=
  let parse (discard : Nat) : Option (Option Error × World) :=
    match osOpen w path with
    | Except.error err => some (some err, w)
    | Except.ok file =>
      let st := initialState (h.newLogFile file) ((NewReader file.content).Discard discard)
      let left := parseLinesLeft h.parser w.active st w
      match ParseLogFile h.parser h.newLogFile file discard w.active w with
      | Outcome.panicked => none
      | Outcome.running _ _ => none
      | Outcome.returned _ (some err) w1 => some (some err, { w1 with active := left })
      | Outcome.returned bytesRead none w1 =>
        some (SetFileMetadata h ⟨path, info.ModTime, discard + bytesRead⟩ { w1 with active := left })
  match GetFileMetadata w path with
  | some fm => if !fm.LastModified.Before info.ModTime then some (none, w) else parse fm.Discard
  | none => parse 0

/-- One call of the function `filepath.Walk` hands to its walk function: a path, its
`os.FileInfo`, and the error of reading it. -/
structure WalkEntry where
  path : GoString
  info : FileInfo
  err : Option Error
  deriving DecidableEq, Repr

/-- The walk function of `Handler.handle`. -/
def walkFn (h : Handler) (e : WalkEntry) (w : World) : Option (Option Error × World) :=
  match e.err with
  | some _ => some (some (Error.other ("filepath.Walk error".toList)), w)
  | none =>
    if e.info.IsDir then some (none, w)
    else if !h.filePattern e.path then some (none, w)
    else handleFile h e.path e.info w

/-- The method `Handler.handle`: `filepath.Walk` calls the walk function on the entries
of the directory tree in turn, and stops at the first error it returns, which it
returns itself. -/
def handle (h : Handler) : List WalkEntry → World → Option (Option Error × World)
  | [], w => some (none, w)
  | e :: rest, w =>
    match walkFn h e w with
    | none => none
    | some (some err, w1) => some (some err, w1)
    | some (none, w1) => handle h rest w1

/-! ## `index/index.go` -/

/-- A request to the Elasticsearch index. -/
inductive Request where
  | close : Request
  | putSettings : Request
  | putMapping : Request
  | open_ : Request
  deriving DecidableEq, Repr

/-- The index as the set-up sees it: whether it is closed, the requests it got, oldest
first, and how it will answer: the number of close requests it still refuses, and
whether it refuses the settings, the mapping, the open request. -/
structure Elastic where
  closed : Bool
  requests : List Request
  closeRefusals : Nat
  refuseSettings : Bool
  refuseMapping : Bool
  refuseOpen : Bool
  deriving DecidableEq, Repr

/-- The error of a refused request. -/
def refused : Error := Error.other ("refused".toList)

/-- The function `closeIndex`. -/
def closeIndex (es : Elastic) : Option Error × Elastic :=
  match es.closeRefusals with
  | 0 => (none, { es with closed := true, requests := es.requests ++ [Request.close] })
  | k + 1 => (some refused, { es with requests := es.requests ++ [Request.close], closeRefusals := k })

/-- The function `openIndex`. -/
def openIndex (es : Elastic) : Option Error × Elastic :=
  if es.refuseOpen then (some refused, { es with requests := es.requests ++ [Request.open_] })
  else (none, { es with closed := false, requests := es.requests ++ [Request.open_] })

/-- The request of `putSettings.Do`. -/
def putSettings (es : Elastic) : Option Error × Elastic :=
  (if es.refuseSettings then some refused else none,
    { es with requests := es.requests ++ [Request.putSettings] })

/-- The request of `putMapping.Do`. -/
def putMapping (es : Elastic) : Option Error × Elastic :=
  (if es.refuseMapping then some refused else none,
    { es with requests := es.requests ++ [Request.putMapping] })

/-- The function `funcWithSuspendedIndex`. -/
def funcWithSuspendedIndex (fn : Elastic → Option Error × Elastic) (es : Elastic) :
    Option Error × Elastic :=
  match Retry 10 closeIndex es with
  | (some _, es1) => (some (Error.other ("Failed to close LogIndex".toList)), es1)
  | (none, es1) =>
    match fn es1 with
    | (some err, es2) => (some err, es2)
    | (none, es2) =>
      match openIndex es2 with
      | (some _, es3) => (some (Error.other ("Failed to open LogIndex".toList)), es3)
      | (none, es3) => (none, es3)

/-- The function `setupIndex`. -/
def setupIndex (es : Elastic) : Option Error × Elastic :=
  funcWithSuspendedIndex (fun es0 =>
    match putSettings es0 with
    | (some err, es1) => (some err, es1)
    | (none, es1) =>
      match putMapping es1 with
      | (some err, es2) => (some err, es2)
      | (none, es2) => (none, es2)) es

/-! ## Handlers, files and worlds used in the statements -/

/-- A handler that never fails and keeps the entries it is handed, oldest first. -/
def recorder : Parser (List ParseLogEntry) := ⟨fun entry log => (none, log ++ [entry])⟩

/-- The invariant of the loop of `parseLines`: a forced continuation finds a message
line to extend. -/
def LoopInv (st : LoopState) : Prop :=
  st.forceContinueEntry = true → st.currentEntry.MessageLines ≠ []

/-- A reference date. -/
def sampleDate : Time := ⟨2019, 1, 24, 16, 43, 34, 0, 0⟩

/-- A log file with the reference date `sampleDate`. -/
def sampleFile : LogFile :=
  ⟨"/logs/a.log.INFO.1".toList, "/logs/a.log.INFO.1".toList, sampleDate, []⟩

/-- A handler whose index and metadata storage take every request. -/
def sampleHandler : Handler :=
  { filePattern := fun _ => true
    newLogFile := fun file => ⟨file.Name, file.Name, sampleDate, []⟩
    indexFails := fun _ => none
    storeFails := fun _ => none }

/-- A directory with the matching files `a` and `b`, of which only `b` can be opened
(`files` has no bytes for `a`);
the parser is stopped after two iterations. -/
def sampleWorld : World :=
  ⟨[], [], [("/logs/b.log.INFO.1".toList, "x\n".toList)], 2⟩

/-- The walk over the directory of `sampleWorld`. -/
def sampleWalk : List WalkEntry :=
  [⟨"/logs/a.log.INFO.1".toList, ⟨false, sampleDate⟩, none⟩,
   ⟨"/logs/b.log.INFO.1".toList, ⟨false, sampleDate⟩, none⟩]

/-- Value of a string of decimal digits. -/
def digitsValue (l : GoString) : Nat := l.foldl (fun acc c => acc * 10 + digitVal c) 0

/-! ## Lines of a stream and the entries handed over, for the statements about whole
streams -/

/-- The results of the successive calls of `ReadLine` on a reader, each with its
`isPrefix`, up to the first error; `fuel` bounds their number. -/
def readAll : Nat → Reader → List (GoString × Bool)
  | 0, _ => []
  | fuel + 1, r =>
    match r.ReadLine with
    | (⟨line, isPrefix, none⟩, r1) => (line, isPrefix) :: readAll fuel r1
    | _ => []

/-- The results of `ReadLine` on a reader up to `io.EOF`.  Every call takes at least
one byte, so the number of bytes left bounds the number of calls. -/
def Reader.lines (r : Reader) : List (GoString × Bool) := readAll r.data.length r

/-- The number of lines, among results of `ReadLine`, that are read with
`forceContinueEntry` cleared and match `entryLineRe`; `force` is the flag at the first
of them, and the flag at each other one is the `isPrefix` of the one before. -/
def headerCount : Bool → List (GoString × Bool) → Nat
  | _, [] => 0
  | force, (line, isPrefix) :: rest =>
    (if !force && (entryLineRe line).isSome then 1 else 0) + headerCount isPrefix rest

/-- The entries of a handler log that `Handler.handleLogEntry` passes on to the index:
those with a message line. -/
def delivered (log : List ParseLogEntry) : List ParseLogEntry :=
  log.filter (fun e => decide (e.MessageLines.length > 0))

/-- The log of the handler `recorder` at an outcome of the loop. -/
def Outcome.handled : Outcome (List ParseLogEntry) → List ParseLogEntry
  | Outcome.returned _ _ log => log
  | Outcome.running _ log => log
  | Outcome.panicked => []

/-- The local variables of `parseLines` bar the reader, together with the log of the
handler `recorder`. -/
structure Fed where
  currentEntry : ParseLogEntry
  bytesRead : Nat
  forceContinueEntry : Bool
  handled : List ParseLogEntry
  deriving DecidableEq, Repr

/-- The effect of one result of `ReadLine` on the variables of the loop, under the
handler `recorder`. -/
def feedLine (f : Fed) (l : GoString × Bool) : Fed :=
  match parseLine f.currentEntry l.1 f.forceContinueEntry with
  | none => f
  | some r =>
    if r.isNewEntry then
      ⟨r.resultEntry, f.bytesRead + r.currentEntry.bytesRead, l.2, f.handled ++ [r.currentEntry]⟩
    else
      ⟨r.currentEntry, f.bytesRead, l.2, f.handled⟩

/-- The effect of a list of results of `ReadLine`. -/
def feed (ls : List (GoString × Bool)) (f : Fed) : Fed := ls.foldl feedLine f

/-- Whether a carriage return is followed by a line feed somewhere in the string. -/
def hasCRLF : GoString → Bool
  | [] => false
  | c :: rest => (c == '\r' && rest.head? == some '\n') || hasCRLF rest

/-- The invariant of the loop, on the variables without the reader. -/
def FedInv (f : Fed) : Prop := f.forceContinueEntry = true → f.currentEntry.MessageLines ≠ []

/-! # Theorems -/

/-! ## Auxiliary facts about `parseLine` and the loop -/

theorem parseLine_forced (cur : ParseLogEntry) (line : GoString) (h : cur.MessageLines ≠ []) :
    parseLine cur line true =
      some ⟨{ cur with
                MessageLines := cur.MessageLines.dropLast ++ [cur.MessageLines.getLast h ++ line]
                bytesRead := cur.bytesRead + line.length },
            { cur with
                MessageLines := cur.MessageLines.dropLast ++ [cur.MessageLines.getLast h ++ line]
                bytesRead := cur.bytesRead + line.length }, false⟩ := by
  unfold parseLine
  simp [List.getLast?_eq_getLast _ h]

theorem parseLine_some_nonempty {cur : ParseLogEntry} {line : GoString} {force : Bool}
    {r : ParseLineResult} (h : parseLine cur line force = some r) :
    r.resultEntry.MessageLines ≠ [] ∧ (r.isNewEntry = false → r.currentEntry = r.resultEntry) := by
  unfold parseLine at h
  split at h
  · split at h
    · simp at h
    · simp at h; subst h; simp
  · split at h
    · simp at h; subst h; simp
    · simp at h; subst h; simp

theorem parseLine_isSome {cur : ParseLogEntry} (line : GoString) {force : Bool}
    (h : force = true → cur.MessageLines ≠ []) : ∃ r, parseLine cur line force = some r := by
  cases force with
  | true => exact ⟨_, parseLine_forced cur line (h rfl)⟩
  | false =>
    unfold parseLine
    cases entryLineRe line <;> simp

theorem parseLinesStep_inv {σ : Type} (p : Parser σ) {st : LoopState} (s : σ) (hinv : LoopInv st) :
    parseLinesStep p st s ≠ Outcome.panicked ∧
      ∀ st1 s1, parseLinesStep p st s = Outcome.running st1 s1 → LoopInv st1 := by
  unfold parseLinesStep
  rcases hr : st.reader.ReadLine with ⟨⟨line, isPrefix, err⟩, reader⟩
  cases err with
  | none =>
    obtain ⟨r, hpl⟩ := parseLine_isSome line hinv
    have hne := parseLine_some_nonempty hpl
    simp only [hpl]
    cases hnew : r.isNewEntry with
    | true =>
      simp only [if_true]
      rcases hh : p.handleLogEntry r.currentEntry s with ⟨e, s1⟩
      cases e with
      | none =>
        simp only []
        refine ⟨by simp, ?_⟩
        intro st1 s2 h
        injection h with h1 h2
        subst h1
        intro _
        exact hne.1
      | some e => simp
    | false =>
      simp only [Bool.false_eq_true, if_false]
      refine ⟨by simp, ?_⟩
      intro st1 s2 h
      injection h with h1 h2
      subst h1
      intro _
      rw [hne.2 hnew]
      exact hne.1
  | some e =>
    cases e with
    | EOF =>
      simp only []
      rcases hh : p.handleLogEntry st.currentEntry s with ⟨e, s1⟩
      cases e with
      | none =>
        simp only []
        refine ⟨by simp, ?_⟩
        intro st1 s2 h
        injection h with h1 h2
        subst h1
        exact hinv
      | some e => simp
    | other g => simp

theorem parseLinesLoop_inv {σ : Type} (p : Parser σ) (n : Nat) :
    ∀ (st : LoopState) (s : σ), LoopInv st →
      parseLinesLoop p n st s ≠ Outcome.panicked ∧
        ∀ st1 s1, parseLinesLoop p n st s = Outcome.running st1 s1 → LoopInv st1 := by
  induction n with
  | zero =>
    intro st s hinv
    simp only [parseLinesLoop]
    refine ⟨by simp, ?_⟩
    intro st1 s1 h
    injection h with h1 h2
    subst h1
    exact hinv
  | succ n ih =>
    intro st s hinv
    have hstep := parseLinesStep_inv p s hinv
    simp only [parseLinesLoop]
    cases hs : parseLinesStep p st s with
    | returned b e s1 => simp
    | running st1 s1 => exact ih st1 s1 (hstep.2 st1 s1 hs)
    | panicked => exact absurd hs hstep.1

theorem initialState_inv (currentFile : LogFile) (reader : Reader) :
    LoopInv (initialState currentFile reader) := by
  intro h
  simp [initialState] at h

theorem parseLinesStep_recorder {st : LoopState} (log : List ParseLogEntry) (hinv : LoopInv st) :
    ∃ st1 log1, parseLinesStep recorder st log = Outcome.running st1 log1 := by
  have hp := (parseLinesStep_inv recorder log hinv).1
  revert hp
  unfold parseLinesStep
  rcases hr : st.reader.ReadLine with ⟨⟨line, isPrefix, err⟩, reader⟩
  cases err with
  | none =>
    simp only []
    cases hpl : parseLine st.currentEntry line st.forceContinueEntry with
    | none => simp
    | some r =>
      simp only [recorder]
      cases r.isNewEntry <;> simp
  | some e =>
    cases e with
    | EOF => simp [recorder]
    | other g =>
      -- the reader only ever reports `io.EOF`
      exfalso
      unfold Reader.ReadLine at hr
      simp only [] at hr
      split at hr
      · simp at hr
      · split at hr
        · split at hr <;> simp at hr
        · split at hr <;> simp at hr

theorem parseLinesLoop_recorder (n : Nat) :
    ∀ (st : LoopState) (log : List ParseLogEntry), LoopInv st →
      ∃ st1 log1, parseLinesLoop recorder n st log = Outcome.running st1 log1 := by
  induction n with
  | zero => intro st log _; exact ⟨st, log, rfl⟩
  | succ n ih =>
    intro st log hinv
    obtain ⟨st1, log1, h1⟩ := parseLinesStep_recorder log hinv
    simp only [parseLinesLoop, h1]
    exact ih st1 log1 ((parseLinesStep_inv recorder log hinv).2 st1 log1 h1)

theorem parseLinesStep_recorder_eof (cur : ParseLogEntry) (bytes : Nat) (force : Bool)
    (log : List ParseLogEntry) :
    parseLinesStep recorder ⟨cur, bytes, force, NewReader []⟩ log =
      Outcome.running ⟨cur, bytes + cur.bytesRead, force, NewReader []⟩ (log ++ [cur]) := by
  rfl

theorem parseLinesLoop_recorder_eof (k : Nat) :
    ∀ (cur : ParseLogEntry) (bytes : Nat) (force : Bool) (log : List ParseLogEntry),
    parseLinesLoop recorder k ⟨cur, bytes, force, NewReader []⟩ log =
      Outcome.running ⟨cur, bytes + k * cur.bytesRead, force, NewReader []⟩
        (log ++ List.replicate k cur) := by
  induction k with
  | zero => intro cur bytes force log; simp [parseLinesLoop]
  | succ k ih =>
    intro cur bytes force log
    have h1 : bytes + cur.bytesRead + k * cur.bytesRead = bytes + (k + 1) * cur.bytesRead := by
      rw [Nat.succ_mul]; omega
    have h2 : log ++ [cur] ++ List.replicate k cur = log ++ List.replicate (k + 1) cur := by
      simp [List.replicate_succ]
    simp only [parseLinesLoop, parseLinesStep_recorder_eof, ih, h1, h2]

/-! ## Decimal digits -/

theorem digitChar_spec (d : Nat) (h : d < 10) :
    isDigit (digitChar d) = true ∧ digitVal (digitChar d) = d := by
  interval_cases d <;> decide

theorem digitsValue_append_singleton (l : GoString) (c : Char) :
    digitsValue (l ++ [c]) = digitsValue l * 10 + digitVal c := by
  simp [digitsValue, List.foldl_append]

theorem decimalAux_spec (fuel : Nat) :
    ∀ (n : Nat) (acc : GoString), n < fuel →
      ∃ ds : GoString, decimalAux fuel n acc = ds ++ acc ∧ ds ≠ [] ∧
        (∀ c ∈ ds, isDigit c = true) ∧ digitsValue ds = n := by
  induction fuel with
  | zero => intro n acc h; omega
  | succ fuel ih =>
    intro n acc h
    unfold decimalAux
    by_cases h10 : n < 10
    · refine ⟨[digitChar n], by simp [h10], by simp, ?_, ?_⟩
      · intro c hc
        simp at hc
        subst hc
        exact (digitChar_spec n h10).1
      · simp [digitsValue, (digitChar_spec n h10).2]
    · have hlt : n / 10 < fuel := by omega
      obtain ⟨ds, h1, _, h3, h4⟩ := ih (n / 10) (digitChar (n % 10) :: acc) hlt
      have hd := digitChar_spec (n % 10) (by omega)
      refine ⟨ds ++ [digitChar (n % 10)], by simp [h10, h1], by simp, ?_, ?_⟩
      · intro c hc
        simp at hc
        rcases hc with hc | hc
        · exact h3 c hc
        · subst hc; exact hd.1
      · rw [digitsValue_append_singleton, h4, hd.2]
        omega

theorem decimal_spec (n : Nat) :
    decimal n ≠ [] ∧ (∀ c ∈ decimal n, isDigit c = true) ∧ digitsValue (decimal n) = n := by
  obtain ⟨ds, h1, h2, h3, h4⟩ := decimalAux_spec (n + 1) n [] (by omega)
  simp only [List.append_nil] at h1
  unfold decimal
  rw [h1]
  exact ⟨h2, h3, h4⟩

theorem decimal_injective {a b : Nat} (h : decimal a = decimal b) : a = b := by
  rw [← (decimal_spec a).2.2, ← (decimal_spec b).2.2, h]

theorem decimal_four_digits (n : Nat) (h1 : 1000 ≤ n) (h2 : n ≤ 9999) :
    decimal n = [digitChar (n / 1000), digitChar (n / 100 % 10), digitChar (n / 10 % 10),
      digitChar (n % 10)] := by
  obtain ⟨k, hk⟩ : ∃ k, n + 1 = k + 4 := ⟨n - 3, by omega⟩
  unfold decimal
  rw [hk]
  have a1 : ¬ n < 10 := by omega
  have a2 : ¬ n / 10 < 10 := by omega
  have a3 : ¬ n / 10 / 10 < 10 := by omega
  have a4 : n / 10 / 10 / 10 < 10 := by omega
  simp only [decimalAux, a1, a2, a3, a4, if_true, if_false]
  have e1 : n / 10 / 10 / 10 = n / 1000 := by omega
  have e2 : n / 10 / 10 % 10 = n / 100 % 10 := by omega
  rw [e1, e2]

theorem digitsVal_of_digits (c1 c2 c3 c4 : Char) (h1 : isDigit c1 = true)
    (h2 : isDigit c2 = true) (h3 : isDigit c3 = true) (h4 : isDigit c4 = true) :
    digitsVal [c1, c2, c3, c4] =
      some (((digitVal c1 * 10 + digitVal c2) * 10 + digitVal c3) * 10 + digitVal c4) := by
  unfold digitsVal
  simp [h1, h2, h3, h4]

theorem digitsVal_four (n : Nat) (h1 : 1000 ≤ n) (h2 : n ≤ 9999) :
    digitsVal [digitChar (n / 1000), digitChar (n / 100 % 10), digitChar (n / 10 % 10),
      digitChar (n % 10)] = some n := by
  have d1 := digitChar_spec (n / 1000) (by omega)
  have d2 := digitChar_spec (n / 100 % 10) (by omega)
  have d3 := digitChar_spec (n / 10 % 10) (by omega)
  have d4 := digitChar_spec (n % 10) (by omega)
  rw [digitsVal_of_digits _ _ _ _ d1.1 d2.1 d3.1 d4.1, d1.2, d2.2, d3.2, d4.2]
  congr 1
  omega

/-- A time read in a four-digit year has that year, is in UTC and has a month of the
calendar. -/
theorem parseInYear_year (y : Int) (s : GoString) (t : Time) (h1 : 1000 ≤ y) (h2 : y ≤ 9999)
    (h : parseInYear y s = some t) :
    t.year = y ∧ t.offset = 0 ∧ t.Year = y ∧ t.Month = t.month ∧ 1 ≤ t.month ∧ t.month ≤ 12 ∧
      1 ≤ t.day ∧ t.day ≤ daysIn t.month y := by
  have hn1 : 1000 ≤ y.natAbs := by omega
  have hn2 : y.natAbs ≤ 9999 := by omega
  have hy : (y.natAbs : Int) = y := by omega
  unfold parseInYear Itoa at h
  rw [if_neg (by omega), decimal_four_digits _ hn1 hn2] at h
  simp only [List.cons_append, List.nil_append, parseEntryTimestamp,
    digitsVal_four _ hn1 hn2] at h
  repeat' split at h
  all_goals first | (simp at h; done) | skip
  rename_i hc
  simp only [Option.some.injEq] at h
  subst h
  simp only [Time.Year, Time.Month, Time.zoneYearMonth, if_true, hy]
  rw [hy] at hc
  exact ⟨trivial, trivial, trivial, trivial, hc.1, hc.2.1, hc.2.2.2.2.2.2.1, hc.2.2.2.2.2.2.2⟩

/-! ## The end of the stream (C1, C6) -/

/-- C1 (the code departs from the claim).  With the parser left active and a handler
that never fails, `parseLines` does not return on any finite stream: after every
number of iterations the loop is still running.  Once the stream is exhausted, each
further iteration reports `io.EOF` again, hands the same last entry to the handler
again and adds its byte count again.  On the file `hello\n` the third iteration has
handed the entry over twice and counts 12 bytes for 6. -/
theorem parseLines_never_returns_at_end_of_stream :
    (∀ (currentFile : LogFile) (data : GoString) (n : Nat), ∃ st log,
      parseLinesLoop recorder n (initialState currentFile (NewReader data)) [] =
        Outcome.running st log) ∧
    (∀ (cur : ParseLogEntry) (bytes : Nat) (force : Bool) (log : List ParseLogEntry) (k : Nat),
      parseLinesLoop recorder k ⟨cur, bytes, force, NewReader []⟩ log =
        Outcome.running ⟨cur, bytes + k * cur.bytesRead, force, NewReader []⟩
          (log ++ List.replicate k cur)) ∧
    parseLinesLoop recorder 3 (initialState sampleFile (NewReader "hello\n".toList)) [] =
      Outcome.running
        ⟨{ initialEntry sampleFile with MessageLines := ["hello".toList], bytesRead := 6 },
          12, false, NewReader []⟩
        [{ initialEntry sampleFile with MessageLines := ["hello".toList], bytesRead := 6 },
         { initialEntry sampleFile with MessageLines := ["hello".toList], bytesRead := 6 }] := by
  refine ⟨?_, ?_, ?_⟩
  · intro currentFile data n
    exact parseLinesLoop_recorder n _ _ (initialState_inv _ _)
  · intro cur bytes force log k
    exact parseLinesLoop_recorder_eof k cur bytes force log
  · decide

/-- C6 (the code departs from the claim).  When the end of the stream has been handled
once, the byte count is 2 for the one-byte file `a` (a line feed that is not there is
counted) and 2 for the three-byte file `a\r\n` (the carriage return is not counted);
`handleFile`, stopped right after the end of the one-byte file, stores the discard
offset 2. -/
theorem parseLines_byte_count_differs_from_stream_length :
    parseLinesLoop recorder 2 (initialState sampleFile (NewReader "a".toList)) [] =
      Outcome.running
        ⟨{ initialEntry sampleFile with MessageLines := ["a".toList], bytesRead := 2 },
          2, false, NewReader []⟩
        [{ initialEntry sampleFile with MessageLines := ["a".toList], bytesRead := 2 }] ∧
    parseLinesLoop recorder 2 (initialState sampleFile (NewReader "a\r\n".toList)) [] =
      Outcome.running
        ⟨{ initialEntry sampleFile with MessageLines := ["a".toList], bytesRead := 2 },
          2, false, NewReader []⟩
        [{ initialEntry sampleFile with MessageLines := ["a".toList], bytesRead := 2 }] ∧
    (handleFile sampleHandler "/logs/a.log.INFO.1".toList ⟨false, sampleDate⟩
        ⟨[], [], [("/logs/a.log.INFO.1".toList, "a".toList)], 2⟩).map
          (fun r => (r.1, r.2.metadata))
      = some (none, [⟨"/logs/a.log.INFO.1".toList, sampleDate, 2⟩]) := by
  decide

/-! ## The header pattern (C3) -/

theorem takeWhile_append_stop {p : Char → Bool} :
    ∀ (xs : GoString) (d : Char) (r : GoString), (∀ c ∈ xs, p c = true) → p d = false →
      (xs ++ d :: r).takeWhile p = xs ∧ (xs ++ d :: r).dropWhile p = d :: r := by
  intro xs
  induction xs with
  | nil => intro d r _ hd; simp [List.takeWhile_cons, List.dropWhile_cons, hd]
  | cons x xs ih =>
    intro d r h hd
    have hx : p x = true := h x (by simp)
    obtain ⟨h1, h2⟩ := ih d r (fun c hc => h c (by simp [hc])) hd
    simp [List.takeWhile_cons, List.dropWhile_cons, hx, h1, h2]

theorem isDot_of_ne (c : Char) (h : c ≠ '\n') : isDot c = true := by
  unfold isDot
  simp only [bne_iff_ne, ne_eq]
  intro hc
  apply h
  have := Char.ofNat_toNat c
  rw [hc] at this
  exact this.symm

theorem takeWhile_isDot (msg : GoString) (h : '\n' ∉ msg) : msg.takeWhile isDot = msg := by
  rw [List.takeWhile_eq_self_iff]
  intro c hc
  exact isDot_of_ne c (fun h1 => h (h1 ▸ hc))

theorem isSpace_of_isWord (c : Char) (h : isWord c = true) : isSpace c = false := by
  unfold isWord isDigit at h
  unfold isSpace
  simp only [Bool.or_eq_true, Bool.and_eq_true, decide_eq_true_eq, beq_iff_eq] at h
  simp only [Bool.or_eq_false_iff, beq_eq_false_iff_ne, ne_eq]
  omega

/-- A line of the header form with a thread id of one word character is matched by
`entryLineRe`, with the parts of the line as its groups. -/
theorem entryLineRe_one_character_thread_id (sev d1 d2 d3 d4 tid : Char)
    (time file num msg : GoString)
    (hsev : isSeverityChar sev = true)
    (hd : isDigit d1 = true ∧ isDigit d2 = true ∧ isDigit d3 = true ∧ isDigit d4 = true)
    (htime : time ≠ [] ∧ ∀ c ∈ time, isTimeChar c = true)
    (htid : isWord tid = true)
    (hfile : file ≠ [] ∧ ∀ c ∈ file, isFileChar c = true)
    (hnum : num ≠ [] ∧ ∀ c ∈ num, isDigit c = true)
    (hmsg : '\n' ∉ msg) :
    entryLineRe (sev :: d1 :: d2 :: d3 :: d4 :: ' ' ::
        (time ++ ' ' :: tid :: ' ' :: (file ++ ':' :: (num ++ ']' :: ' ' :: msg)))) =
      some ⟨[sev], d1 :: d2 :: d3 :: d4 :: ' ' :: time, [tid], file ++ ':' :: num, msg⟩ := by
  obtain ⟨t1, t2⟩ := takeWhile_append_stop time ' '
    (tid :: ' ' :: (file ++ ':' :: (num ++ ']' :: ' ' :: msg))) htime.2 (by decide)
  obtain ⟨f1, f2⟩ := takeWhile_append_stop file ':' (num ++ ']' :: ' ' :: msg) hfile.2 (by decide)
  obtain ⟨n1, n2⟩ := takeWhile_append_stop num ']' (' ' :: msg) hnum.2 (by decide)
  have hsp : isSpace ' ' = true := by decide
  have htsp : isSpace tid = false := isSpace_of_isWord tid htid
  have htne : time.isEmpty = false := by
    cases time with
    | nil => exact absurd rfl htime.1
    | cons _ _ => rfl
  simp only [entryLineRe, t1, t2, hsev, hd.1, hd.2.1, hd.2.2.1, hd.2.2.2, hsp, htne, Bool.and_self,
    Bool.not_false, if_true, matchThread, List.takeWhile_cons, List.dropWhile_cons, htsp,
    Bool.false_eq_true, if_false]
  simp only [ne_eq, List.cons_ne_self, not_false_eq_true, htid, hsp, and_self, if_true,
    matchEntryPoint, f1, f2, n1, n2, hfile.1, hnum.1, matchTail, beq_self_eq_true, Bool.and_self,
    takeWhile_isDot msg hmsg, reduceCtorEq]


/-- Read unforced, a line of the header form with a thread id of one word character
starts a new entry with the parts of the line and leaves the previous entry as it
was. -/
theorem parseLine_one_character_thread_id (cur : ParseLogEntry) (sev d1 d2 d3 d4 tid : Char)
    (time file num msg : GoString)
    (hsev : isSeverityChar sev = true)
    (hd : isDigit d1 = true ∧ isDigit d2 = true ∧ isDigit d3 = true ∧ isDigit d4 = true)
    (htime : time ≠ [] ∧ ∀ c ∈ time, isTimeChar c = true)
    (htid : isWord tid = true)
    (hfile : file ≠ [] ∧ ∀ c ∈ file, isFileChar c = true)
    (hnum : num ≠ [] ∧ ∀ c ∈ num, isDigit c = true)
    (hmsg : '\n' ∉ msg) :
    parseLine cur (sev :: d1 :: d2 :: d3 :: d4 :: ' ' ::
        (time ++ ' ' :: tid :: ' ' :: (file ++ ':' :: (num ++ ']' :: ' ' :: msg)))) false =
      some ⟨cur,
        { Severity := logEntrySeverityLevel [sev]
          Timestamp := logEntryTimestamp cur.Timestamp (d1 :: d2 :: d3 :: d4 :: ' ' :: time)
          ThreadId := [tid]
          EntryPoint := file ++ ':' :: num
          MessageLines := [msg]
          LogFile := cur.LogFile
          bytesRead := (sev :: d1 :: d2 :: d3 :: d4 :: ' ' ::
            (time ++ ' ' :: tid :: ' ' :: (file ++ ':' :: (num ++ ']' :: ' ' :: msg)))).length
              + 1 }, true⟩ := by
  unfold parseLine
  simp only [Bool.false_eq_true, if_false,
    entryLineRe_one_character_thread_id sev d1 d2 d3 d4 tid time file num msg hsev hd htime htid
      hfile hnum hmsg]

theorem logEntrySeverityLevel_letters :
    logEntrySeverityLevel ['I'] = "INFO".toList ∧ logEntrySeverityLevel ['W'] = "WARNING".toList ∧
    logEntrySeverityLevel ['E'] = "ERROR".toList ∧ logEntrySeverityLevel ['F'] = "FATAL".toList := by
  decide


/-- C3 (the code departs from the claim).  A header line whose thread id has two
characters is not matched by `entryLineRe`, whose third group is a single `\w`:
`parseLine` appends the whole line to the current entry as a continuation.  The same
line with a one-character thread id starts a new entry with the fields of the line. -/
theorem parseLine_rejects_two_character_thread_id :
    entryLineRe "I0101 10:00:00.000000 12 a.go:1] hello".toList = none ∧
    parseLine (initialEntry sampleFile) "I0101 10:00:00.000000 12 a.go:1] hello".toList false
      = some ⟨{ initialEntry sampleFile with
                  MessageLines := ["I0101 10:00:00.000000 12 a.go:1] hello".toList]
                  bytesRead := 39 },
              { initialEntry sampleFile with
                  MessageLines := ["I0101 10:00:00.000000 12 a.go:1] hello".toList]
                  bytesRead := 39 }, false⟩ ∧
    parseLine (initialEntry sampleFile) "W0101 10:00:00.000000 1 a.go:1] hello".toList false
      = some ⟨initialEntry sampleFile,
              { Severity := "WARNING".toList
                Timestamp := ⟨2019, 1, 1, 10, 0, 0, 0, 0⟩
                ThreadId := "1".toList
                EntryPoint := "a.go:1".toList
                MessageLines := ["hello".toList]
                LogFile := sampleFile
                bytesRead := 38 }, true⟩ := by
  decide

/-! ## The year of an entry (C4) -/

/-- C4, counterexample.  After a timestamp of March 2024 the header time
`0229 10:00:00.000000` parses in 2024 with a month less than March, and does not parse
in 2025; `logEntryTimestamp` returns the previous timestamp, not the time read in the
following year. -/
theorem logEntryTimestamp_leap_day_counterexample :
    parseInYear (Time.Year ⟨2024, 3, 1, 0, 0, 0, 0, 0⟩) "0229 10:00:00.000000".toList
        = some ⟨2024, 2, 29, 10, 0, 0, 0, 0⟩ ∧
    Time.Month ⟨2024, 2, 29, 10, 0, 0, 0, 0⟩ < Time.Month ⟨2024, 3, 1, 0, 0, 0, 0, 0⟩ ∧
    some (logEntryTimestamp ⟨2024, 3, 1, 0, 0, 0, 0, 0⟩ "0229 10:00:00.000000".toList)
        ≠ parseInYear (Time.Year ⟨2024, 3, 1, 0, 0, 0, 0, 0⟩ + 1) "0229 10:00:00.000000".toList ∧
    logEntryTimestamp ⟨2024, 3, 1, 0, 0, 0, 0, 0⟩ "0229 10:00:00.000000".toList
        = ⟨2024, 3, 1, 0, 0, 0, 0, 0⟩ := by
  decide

/-- C4, amended.  `logEntryTimestamp p s` is total and is: `p` when `s` does not parse
in the year of `p`; the time read in the year of `p` when it parses there with a month
not less than that of `p`; and, when that month is less, the time read in the following
year if `s` parses there too, `p` otherwise.  A time read in a year of four digits has
that year, is in UTC, and its month and day are a date of the calendar. -/
theorem logEntryTimestamp_cases :
    (∀ (p : Time) (s : GoString),
      logEntryTimestamp p s =
        match parseInYear p.Year s with
        | none => p
        | some t =>
          if t.Month < p.Month then
            match parseInYear (p.Year + 1) s with
            | none => p
            | some t1 => t1
          else t) ∧
    (∀ (y : Int) (s : GoString) (t : Time), 1000 ≤ y → y ≤ 9999 → parseInYear y s = some t →
      t.year = y ∧ t.offset = 0 ∧ t.Year = y ∧ t.Month = t.month ∧ 1 ≤ t.month ∧ t.month ≤ 12 ∧
        1 ≤ t.day ∧ t.day ≤ daysIn t.month y) := by
  constructor
  · intro p s
    unfold logEntryTimestamp
    cases h : parseInYear p.Year s with
    | none => simp
    | some t =>
      by_cases hm : t.Month < p.Month
      · simp only [hm, if_true, gt_iff_lt]
        cases parseInYear (p.Year + 1) s <;> rfl
      · simp [hm, h]
  · intro y s t h1 h2 h
    exact parseInYear_year y s t h1 h2 h

/-- C4, witness: the header time `0124 16:53:43.847231` read in 2019. -/
theorem logEntryTimestamp_cases_witness :
    parseInYear 2019 "0124 16:53:43.847231".toList
      = some ⟨2019, 1, 24, 16, 53, 43, 847231000, 0⟩ ∧
    (⟨2019, 1, 24, 16, 53, 43, 847231000, 0⟩ : Time).year = 2019 ∧
    (⟨2019, 1, 24, 16, 53, 43, 847231000, 0⟩ : Time).Month = 1 :=
  ⟨by decide,
    (logEntryTimestamp_cases.2 2019 "0124 16:53:43.847231".toList
      ⟨2019, 1, 24, 16, 53, 43, 847231000, 0⟩ (by decide) (by decide) (by decide)).1,
    (logEntryTimestamp_cases.2 2019 "0124 16:53:43.847231".toList
      ⟨2019, 1, 24, 16, 53, 43, 847231000, 0⟩ (by decide) (by decide) (by decide)).2.2.2.1⟩

/-! ## Index set-up (C9) -/

/-- C9 (the code departs from the claim).  When the index has been closed and the
mutating function returns an error, `funcWithSuspendedIndex` returns that error at
once: no open request is issued and the index stays closed.  `setupIndex` with
refused settings issues the requests close and put-settings only. -/
theorem funcWithSuspendedIndex_failed_mutation_leaves_index_closed :
    (∀ (err : Error) (requests : List Request),
      funcWithSuspendedIndex (fun es => (some err, es)) ⟨false, requests, 0, false, false, false⟩
        = (some err, ⟨true, requests ++ [Request.close], 0, false, false, false⟩)) ∧
    setupIndex ⟨false, [], 0, true, false, false⟩
      = (some refused, ⟨true, [Request.close, Request.putSettings], 0, true, false, false⟩) := by
  constructor
  · intro err requests
    rfl
  · decide

/-! ## Forced continuation (C8) -/

theorem parseLinesStep_forced {σ : Type} (p : Parser σ) (st : LoopState) (s : σ)
    (line : GoString) (isPrefix : Bool) (reader : Reader)
    (hforce : st.forceContinueEntry = true)
    (hread : st.reader.ReadLine = (⟨line, isPrefix, none⟩, reader))
    (h : st.currentEntry.MessageLines ≠ []) :
    parseLinesStep p st s =
      Outcome.running
        ⟨{ st.currentEntry with
            MessageLines := st.currentEntry.MessageLines.dropLast ++
              [st.currentEntry.MessageLines.getLast h ++ line]
            bytesRead := st.currentEntry.bytesRead + line.length },
          st.bytesRead, isPrefix, reader⟩ s := by
  unfold parseLinesStep
  rw [hread]
  simp only [hforce, parseLine_forced _ _ h]
  simp

/-- C8.  With `forceContinueEntry` set, `parseLine` appends the chunk to the last
message line of the current entry whatever the chunk looks like: no new entry, the
same number of message lines, the byte count larger by the length of the chunk.  In
the loop this leaves the handler untouched and sets `forceContinueEntry` to the
`isPrefix` of the chunk read.  In every state the loop of `parseLines` reaches,
`forceContinueEntry` implies that the current entry has a message line, and the loop
never panics. -/
theorem forced_continuation_extends_last_message_line :
    (∀ (cur : ParseLogEntry) (line : GoString) (h : cur.MessageLines ≠ []),
      ∃ r, parseLine cur line true = some r ∧ r.isNewEntry = false ∧
        r.currentEntry = r.resultEntry ∧
        r.resultEntry.MessageLines =
          cur.MessageLines.dropLast ++ [cur.MessageLines.getLast h ++ line] ∧
        r.resultEntry.MessageLines.length = cur.MessageLines.length ∧
        r.resultEntry.bytesRead = cur.bytesRead + line.length) ∧
    (∀ {σ : Type} (p : Parser σ) (st : LoopState) (s : σ) (line : GoString) (isPrefix : Bool)
        (reader : Reader), st.forceContinueEntry = true →
        st.reader.ReadLine = (⟨line, isPrefix, none⟩, reader) →
        ∀ h : st.currentEntry.MessageLines ≠ [],
        parseLinesStep p st s =
          Outcome.running
            ⟨{ st.currentEntry with
                MessageLines := st.currentEntry.MessageLines.dropLast ++
                  [st.currentEntry.MessageLines.getLast h ++ line]
                bytesRead := st.currentEntry.bytesRead + line.length },
              st.bytesRead, isPrefix, reader⟩ s) ∧
    (∀ {σ : Type} (p : Parser σ) (currentFile : LogFile) (reader : Reader) (n : Nat) (s : σ),
      parseLinesLoop p n (initialState currentFile reader) s ≠ Outcome.panicked ∧
      ∀ st s1, parseLinesLoop p n (initialState currentFile reader) s = Outcome.running st s1 →
        st.forceContinueEntry = true → st.currentEntry.MessageLines ≠ []) := by
  refine ⟨?_, ?_, ?_⟩
  · intro cur line h
    refine ⟨_, parseLine_forced cur line h, rfl, rfl, rfl, ?_, rfl⟩
    simp only [List.length_append, List.length_dropLast, List.length_singleton]
    have : 0 < cur.MessageLines.length := List.length_pos.mpr h
    omega
  · intro σ p st s line isPrefix reader hforce hread h
    exact parseLinesStep_forced p st s line isPrefix reader hforce hread h
  · intro σ p currentFile reader n s
    exact parseLinesLoop_inv p n _ s (initialState_inv currentFile reader)

/-- C8, witness: a chunk that matches the header pattern is appended to the line
`long`; after the first four bytes of `abcdefg` were read into a buffer of four bytes
the loop is in a state with `forceContinueEntry` set and one message line. -/
theorem forced_continuation_extends_last_message_line_witness :
    (∃ r, parseLine { initialEntry sampleFile with MessageLines := ["long".toList] }
        "I0101 10:00:00.000000 1 a.go:1] hello".toList true = some r ∧ r.isNewEntry = false ∧
        r.resultEntry.MessageLines = ["longI0101 10:00:00.000000 1 a.go:1] hello".toList]) ∧
    (parseLinesLoop recorder 1 (initialState sampleFile ⟨4, "abcdefg".toList⟩) []
        = Outcome.running
          ⟨{ initialEntry sampleFile with MessageLines := ["abcd".toList], bytesRead := 5 },
            0, true, ⟨4, "efg".toList⟩⟩ [] ∧
      ({ initialEntry sampleFile with MessageLines := ["abcd".toList], bytesRead := 5 } :
        ParseLogEntry).MessageLines ≠ []) := by
  refine ⟨?_, by decide, ?_⟩
  · obtain ⟨r, h1, h2, _, h4, _⟩ := forced_continuation_extends_last_message_line.1
      { initialEntry sampleFile with MessageLines := ["long".toList] }
      "I0101 10:00:00.000000 1 a.go:1] hello".toList (by decide)
    exact ⟨r, h1, h2, by rw [h4]; decide⟩
  · exact (forced_continuation_extends_last_message_line.2.2 recorder sampleFile
      ⟨4, "abcdefg".toList⟩ 1 []).2
      ⟨{ initialEntry sampleFile with MessageLines := ["abcd".toList], bytesRead := 5 },
        0, true, ⟨4, "efg".toList⟩⟩ [] (by decide) (by decide)

/-! ## The directory pass (C10) -/

theorem handle_append (h : Handler) (pre : List WalkEntry) :
    ∀ (post : List WalkEntry) (w : World),
    handle h (pre ++ post) w =
      match handle h pre w with
      | some (none, w1) => handle h post w1
      | r => r := by
  induction pre with
  | nil => intro post w; simp [handle]
  | cons e pre ih =>
    intro post w
    simp only [List.cons_append, handle]
    cases hw : walkFn h e w with
    | none => simp
    | some r =>
      rcases r with ⟨err, w1⟩
      cases err with
      | none => exact ih post w1
      | some err => simp

/-- The pass stops at the first entry whose handling fails: when the entries before `e`
are handled without error and handling `e` fails, `handle` returns the error of `e`
and the world as `e` left it, whatever entries come after `e` in the walk. -/
theorem handle_returns_first_error (h : Handler) (pre post : List WalkEntry)
    (e : WalkEntry) (w w0 w1 : World) (err : Error)
    (hpre : handle h pre w = some (none, w0))
    (hfail : walkFn h e w0 = some (some err, w1)) :
    handle h (pre ++ e :: post) w = some (some err, w1) := by
  rw [handle_append, hpre]
  simp [handle, hfail]

/-- C10 (the code departs from the claim).  In a pass over the matching files `a` and
`b`, where `a` cannot be opened, `handle` returns the error of `a` and leaves the world
as it was: `b`, which comes after `a` in the walk, is not handled in this pass, although
a pass over `b` alone reads it and stores its metadata. -/
theorem handle_aborts_pass_at_failing_file :
    handle sampleHandler sampleWalk sampleWorld
      = some (some (Error.other "open: permission denied".toList), sampleWorld) ∧
    (handle sampleHandler sampleWalk.tail sampleWorld).map (fun r => (r.1, r.2.metadata))
      = some (none, [⟨"/logs/b.log.INFO.1".toList, sampleDate, 2⟩]) := by
  decide

/-! ## The deduplication key (C5) -/

theorem digitsValue_zeros (k : Nat) (l : GoString) :
    digitsValue (List.replicate k '0' ++ l) = digitsValue l := by
  induction k with
  | zero => simp
  | succ k ih =>
    simp only [digitsValue, List.replicate_succ, List.cons_append, List.foldl_cons] at *
    have : (0 * 10 + digitVal '0') = 0 := by decide
    rw [this]
    exact ih

theorem zeroPad_spec (w n : Nat) :
    zeroPad w n ≠ [] ∧ (∀ c ∈ zeroPad w n, isDigit c = true) ∧ digitsValue (zeroPad w n) = n := by
  have hd := decimal_spec n
  refine ⟨?_, ?_, ?_⟩
  · simp [zeroPad, hd.1]
  · intro c hc
    simp only [zeroPad, List.mem_append, List.mem_replicate] at hc
    rcases hc with hc | hc
    · rw [hc.2]; decide
    · exact hd.2.1 c hc
  · rw [zeroPad, digitsValue_zeros, hd.2.2]

theorem zeroPad_injective {w a b : Nat} (h : zeroPad w a = zeroPad w b) : a = b := by
  rw [← (zeroPad_spec w a).2.2, ← (zeroPad_spec w b).2.2, h]

/-- Two strings that begin with digits up to a character that is not a digit agree in
the digits and in the rest. -/
theorem digits_then_rest_inj :
    ∀ (d1 d2 : GoString) {r1 r2 : GoString} {c1 c2 : Char},
      (∀ x ∈ d1, isDigit x = true) → (∀ x ∈ d2, isDigit x = true) →
      isDigit c1 = false → isDigit c2 = false →
      d1 ++ c1 :: r1 = d2 ++ c2 :: r2 → d1 = d2 ∧ r1 = r2 := by
  intro d1
  induction d1 with
  | nil =>
    intro d2 r1 r2 c1 c2 _ h2 hc1 _ h
    cases d2 with
    | nil => simp at h; exact ⟨rfl, h.2⟩
    | cons x d2 =>
      simp at h
      have := h2 x (by simp)
      rw [← h.1, hc1] at this
      cases this
  | cons x d1 ih =>
    intro d2 r1 r2 c1 c2 h1 h2 hc1 hc2 h
    cases d2 with
    | nil =>
      simp at h
      have := h1 x (by simp)
      rw [h.1, hc2] at this
      cases this
    | cons y d2 =>
      simp only [List.cons_append, List.cons.injEq] at h
      obtain ⟨hd, hr⟩ := ih d2 (fun z hz => h1 z (by simp [hz])) (fun z hz => h2 z (by simp [hz]))
        hc1 hc2 h.2
      exact ⟨by rw [h.1, hd], hr⟩

theorem formatYear_then_rest_inj {y1 y2 : Int} {r1 r2 : GoString}
    (h : formatYear y1 ++ '-' :: r1 = formatYear y2 ++ '-' :: r2) : y1 = y2 ∧ r1 = r2 := by
  have hz1 := zeroPad_spec 4 y1.natAbs
  have hz2 := zeroPad_spec 4 y2.natAbs
  have hminus : isDigit '-' = false := by decide
  have hhead : ∀ (n : Nat) (r r0 : GoString), zeroPad 4 n ++ r ≠ '-' :: r0 := by
    intro n r r0 hh
    have hz := zeroPad_spec 4 n
    cases hzp : zeroPad 4 n with
    | nil => exact hz.1 hzp
    | cons x l =>
      rw [hzp] at hh
      simp at hh
      have := hz.2.1 x (by simp [hzp])
      rw [hh.1, hminus] at this
      cases this
  unfold formatYear at h
  by_cases h1 : y1 < 0 <;> by_cases h2 : y2 < 0
  · simp only [h1, h2, if_true, List.cons_append, List.cons.injEq, true_and] at h
    obtain ⟨hd, hr⟩ := digits_then_rest_inj _ _ hz1.2.1 hz2.2.1 hminus hminus h
    have := zeroPad_injective hd
    exact ⟨by omega, hr⟩
  · simp only [h1, h2, if_true, if_false, List.cons_append] at h
    exact absurd h.symm (hhead _ _ _)
  · simp only [h1, h2, if_true, if_false, List.cons_append] at h
    exact absurd h (hhead _ _ _)
  · simp only [h1, h2, if_false] at h
    obtain ⟨hd, hr⟩ := digits_then_rest_inj _ _ hz1.2.1 hz2.2.1 hminus hminus h
    have := zeroPad_injective hd
    exact ⟨by omega, hr⟩

theorem zeroPad_then_rest_inj {w a b : Nat} {r1 r2 : GoString} {c : Char}
    (hc : isDigit c = false) (h : zeroPad w a ++ c :: r1 = zeroPad w b ++ c :: r2) :
    a = b ∧ r1 = r2 := by
  obtain ⟨hd, hr⟩ := digits_then_rest_inj _ _ (zeroPad_spec w a).2.1 (zeroPad_spec w b).2.1 hc hc h
  exact ⟨zeroPad_injective hd, hr⟩

theorem entryKey_flat (e : ParseLogEntry) :
    entryKey e = formatYear e.Timestamp.year ++ '-' :: (zeroPad 2 e.Timestamp.month ++
      '-' :: (zeroPad 2 e.Timestamp.day ++ 'T' :: (zeroPad 2 e.Timestamp.hour ++
      ':' :: (zeroPad 2 e.Timestamp.minute ++ ':' :: (zeroPad 2 e.Timestamp.second ++
      '.' :: (zeroPad 9 e.Timestamp.nsec ++ 'Z' :: '/' ::
        decimal (fnv32a (joinLines e.MessageLines)))))))) := by
  simp [entryKey, StringUTC, Time.UTC, hash, List.append_assoc]

/-- C5.  The key of an entry is the UTC rendering of its timestamp, with nine digits of
fractional seconds, then `/` and the decimal FNV-1a hash of the message lines joined by
line feeds.  Two entries have the same key exactly when their timestamps are the same
instant and the hashes of their joined messages are equal.  The key of the entry
`hello`, `  world` of 2019-01-24 16:53:43.847231 is
`2019-01-24T16:53:43.847231000Z/807062113`. -/
theorem entryKey_eq_iff :
    (∀ e : ParseLogEntry, entryKey e =
      StringUTC e.Timestamp ++ '/' :: decimal (fnv32a (joinLines e.MessageLines))) ∧
    (∀ e1 e2 : ParseLogEntry, entryKey e1 = entryKey e2 ↔
      (e1.Timestamp.UTC = e2.Timestamp.UTC ∧
        fnv32a (joinLines e1.MessageLines) = fnv32a (joinLines e2.MessageLines))) ∧
    entryKey ⟨"INFO".toList, ⟨2019, 1, 24, 16, 53, 43, 847231000, 0⟩, "1".toList,
        "a.go:1".toList, ["hello".toList, "  world".toList], sampleFile, 46⟩
      = "2019-01-24T16:53:43.847231000Z/807062113".toList := by
  refine ⟨fun e => rfl, ?_, by decide⟩
  intro e1 e2
  constructor
  · intro h
    rw [entryKey_flat, entryKey_flat] at h
    obtain ⟨hy, h⟩ := formatYear_then_rest_inj h
    obtain ⟨hmo, h⟩ := zeroPad_then_rest_inj (by decide) h
    obtain ⟨hd, h⟩ := zeroPad_then_rest_inj (by decide) h
    obtain ⟨hh, h⟩ := zeroPad_then_rest_inj (by decide) h
    obtain ⟨hmi, h⟩ := zeroPad_then_rest_inj (by decide) h
    obtain ⟨hs, h⟩ := zeroPad_then_rest_inj (by decide) h
    obtain ⟨hn, h⟩ := zeroPad_then_rest_inj (by decide) h
    simp only [List.cons.injEq, true_and] at h
    refine ⟨?_, decimal_injective h⟩
    simp [Time.UTC, hy, hmo, hd, hh, hmi, hs, hn]
  · intro ⟨ht, hm⟩
    have hu : ∀ t : Time, StringUTC t = StringUTC t.UTC := fun t => rfl
    simp only [entryKey, hash]
    rw [hu e1.Timestamp, hu e2.Timestamp, ht, hm]

/-! ## The loop of `parseLines` over the lines of a stream -/

theorem ReadLine_nil (size : Nat) (h : 1 ≤ size) :
    Reader.ReadLine ⟨size, []⟩ = (⟨[], false, some Error.EOF⟩, ⟨size, []⟩) := by
  unfold Reader.ReadLine
  simp
  omega

theorem takeWhile_length_lt_of_mem {p : Char → Bool} :
    ∀ (x : GoString) (c : Char), c ∈ x → p c = false → (x.takeWhile p).length < x.length := by
  intro x
  induction x with
  | nil => intro c hc; simp at hc
  | cons y x ih =>
    intro c hc hp
    by_cases hy : p y = true
    · simp only [List.takeWhile_cons, hy, if_true, List.length_cons]
      have hcx : c ∈ x := by
        rcases List.mem_cons.mp hc with h | h
        · subst h; rw [hp] at hy; cases hy
        · exact h
      have := ih c hcx hp
      omega
    · simp [List.takeWhile_cons, hy]

/-- Progress of `ReadLine` on a reader that has bytes left. -/
theorem ReadLine_progress (size : Nat) (a : GoString) (hs : 2 ≤ size) (ha : a ≠ []) :
    ∃ line isPrefix a1, Reader.ReadLine ⟨size, a⟩ = (⟨line, isPrefix, none⟩, ⟨size, a1⟩) ∧
      a1.length < a.length := by
  have hlen : 0 < a.length := List.length_pos.mpr ha
  unfold Reader.ReadLine
  simp only []
  by_cases hnl : '\n' ∈ a.take size
  · simp only [hnl, if_true]
    refine ⟨_, _, _, rfl, ?_⟩
    simp only [List.length_drop]
    omega
  · simp only [hnl, if_false]
    by_cases hfull : size ≤ a.length
    · simp only [hfull, if_true]
      by_cases hcr : (a.take size).getLast? = some '\r'
      · simp only [hcr, if_true]
        refine ⟨_, _, _, rfl, ?_⟩
        simp only [List.length_drop]
        omega
      · simp only [hcr, if_false]
        refine ⟨_, _, _, rfl, ?_⟩
        simp only [List.length_drop]
        omega
    · simp only [hfull, if_false, ha]
      exact ⟨_, _, _, rfl, by simpa using hlen⟩

theorem readAll_nil (fuel size : Nat) (h : 1 ≤ size) : readAll fuel ⟨size, []⟩ = [] := by
  cases fuel with
  | zero => rfl
  | succ fuel => simp [readAll, ReadLine_nil size h]

theorem readAll_cons (fuel size : Nat) (a a1 line : GoString) (isPrefix : Bool)
    (h : Reader.ReadLine ⟨size, a⟩ = (⟨line, isPrefix, none⟩, ⟨size, a1⟩)) :
    readAll (fuel + 1) ⟨size, a⟩ = (line, isPrefix) :: readAll fuel ⟨size, a1⟩ := by
  simp [readAll, h]

/-- With enough fuel `readAll` gives the lines of the reader. -/
theorem readAll_eq_lines (size : Nat) (hs : 2 ≤ size) (fuel : Nat) :
    ∀ a : GoString, a.length ≤ fuel → readAll fuel ⟨size, a⟩ = Reader.lines ⟨size, a⟩ := by
  induction fuel using Nat.strong_induction_on with
  | _ fuel ih =>
    intro a h
    by_cases ha : a = []
    · subst ha
      rw [readAll_nil _ _ (by omega)]
      rfl
    · obtain ⟨line, isPrefix, a1, hr, hlt⟩ := ReadLine_progress size a hs ha
      have hpos : 0 < a.length := List.length_pos.mpr ha
      obtain ⟨k, hk⟩ : ∃ k, a.length = k + 1 := ⟨a.length - 1, by omega⟩
      obtain ⟨f, hf⟩ : ∃ f, fuel = f + 1 := ⟨fuel - 1, by omega⟩
      subst hf
      have h1 : Reader.lines ⟨size, a⟩ = readAll (k + 1) ⟨size, a⟩ := by
        unfold Reader.lines
        simp only [hk]
      rw [h1, readAll_cons _ _ _ _ _ _ hr, readAll_cons _ _ _ _ _ _ hr]
      rw [ih f (by omega) a1 (by omega)]
      by_cases hkf : k = f + 1
      · omega
      · rw [ih k (by omega) a1 (by omega)]

theorem parseLinesLoop_add {σ : Type} (p : Parser σ) (n m : Nat) :
    ∀ (st : LoopState) (s : σ), parseLinesLoop p (n + m) st s =
      match parseLinesLoop p n st s with
      | Outcome.running st1 s1 => parseLinesLoop p m st1 s1
      | o => o := by
  induction n with
  | zero => intro st s; simp [parseLinesLoop]
  | succ n ih =>
    intro st s
    rw [Nat.succ_add]
    simp only [parseLinesLoop]
    cases hs : parseLinesStep p st s with
    | returned b e s1 => rfl
    | running st1 s1 => exact ih st1 s1
    | panicked => rfl

theorem parseLinesStep_recorder_line (st : LoopState) (log : List ParseLogEntry)
    (line : GoString) (isPrefix : Bool) (r1 : Reader) (hinv : LoopInv st)
    (hread : st.reader.ReadLine = (⟨line, isPrefix, none⟩, r1)) :
    parseLinesStep recorder st log =
      Outcome.running
        ⟨(feedLine ⟨st.currentEntry, st.bytesRead, st.forceContinueEntry, log⟩
            (line, isPrefix)).currentEntry,
          (feedLine ⟨st.currentEntry, st.bytesRead, st.forceContinueEntry, log⟩
            (line, isPrefix)).bytesRead,
          (feedLine ⟨st.currentEntry, st.bytesRead, st.forceContinueEntry, log⟩
            (line, isPrefix)).forceContinueEntry, r1⟩
        (feedLine ⟨st.currentEntry, st.bytesRead, st.forceContinueEntry, log⟩
            (line, isPrefix)).handled := by
  obtain ⟨r, hpl⟩ := parseLine_isSome line hinv
  unfold parseLinesStep feedLine
  rw [hread]
  simp only [hpl, recorder]
  cases r.isNewEntry <;> simp

theorem feedLine_inv (f : Fed) (l : GoString × Bool) (h : FedInv f) : FedInv (feedLine f l) := by
  obtain ⟨r, hpl⟩ := parseLine_isSome l.1 h
  have hne := parseLine_some_nonempty hpl
  unfold feedLine
  simp only [hpl]
  cases hnew : r.isNewEntry with
  | true => intro _; exact hne.1
  | false =>
    intro _
    simp only [Bool.false_eq_true, if_false]
    rw [hne.2 hnew]
    exact hne.1

theorem feed_inv (ls : List (GoString × Bool)) :
    ∀ f : Fed, FedInv f → FedInv (feed ls f) := by
  induction ls with
  | nil => intro f h; exact h
  | cons l ls ih => intro f h; exact ih _ (feedLine_inv f l h)

/-- The loop, run once for every line of the stream, ends in the variables `feed`
computes, with the reader at the end of the stream. -/
theorem parseLinesLoop_eq_feed (size : Nat) (hs : 2 ≤ size) (fuel : Nat) :
    ∀ (a : GoString) (st : LoopState) (log : List ParseLogEntry),
      a.length ≤ fuel → st.reader = ⟨size, a⟩ → LoopInv st →
      parseLinesLoop recorder (readAll fuel ⟨size, a⟩).length st log =
        Outcome.running
          ⟨(feed (readAll fuel ⟨size, a⟩)
              ⟨st.currentEntry, st.bytesRead, st.forceContinueEntry, log⟩).currentEntry,
            (feed (readAll fuel ⟨size, a⟩)
              ⟨st.currentEntry, st.bytesRead, st.forceContinueEntry, log⟩).bytesRead,
            (feed (readAll fuel ⟨size, a⟩)
              ⟨st.currentEntry, st.bytesRead, st.forceContinueEntry, log⟩).forceContinueEntry,
            ⟨size, []⟩⟩
          (feed (readAll fuel ⟨size, a⟩)
              ⟨st.currentEntry, st.bytesRead, st.forceContinueEntry, log⟩).handled := by
  induction fuel with
  | zero =>
    intro a st log h hr _
    have : a = [] := List.length_eq_zero.mp (by omega)
    subst this
    cases st
    simp only at hr
    subst hr
    rfl
  | succ fuel ih =>
    intro a st log h hr hinv
    by_cases ha : a = []
    · subst ha
      rw [readAll_nil _ _ (by omega)]
      cases st
      simp only at hr
      subst hr
      rfl
    · obtain ⟨line, isPrefix, a1, hread, hlt⟩ := ReadLine_progress size a hs ha
      rw [readAll_cons _ _ _ _ _ _ hread]
      have hread1 : st.reader.ReadLine = (⟨line, isPrefix, none⟩, ⟨size, a1⟩) := by
        rw [hr]; exact hread
      have hstep := parseLinesStep_recorder_line st log line isPrefix ⟨size, a1⟩ hinv hread1
      simp only [List.length_cons, parseLinesLoop, hstep]
      have hinv1 := (parseLinesStep_inv recorder log hinv).2 _ _ hstep
      have := ih a1 _ (feedLine ⟨st.currentEntry, st.bytesRead, st.forceContinueEntry, log⟩
        (line, isPrefix)).handled (by omega) rfl hinv1
      rw [this]
      rfl

/-- The loop when the end of the stream has been handled once. -/
theorem parseLinesLoop_first_eof (size : Nat) (hs : 2 ≤ size) (currentFile : LogFile)
    (a : GoString) :
    parseLinesLoop recorder ((Reader.lines ⟨size, a⟩).length + 1)
        (initialState currentFile ⟨size, a⟩) [] =
      Outcome.running
        ⟨(feed (Reader.lines ⟨size, a⟩) ⟨initialEntry currentFile, 0, false, []⟩).currentEntry,
          (feed (Reader.lines ⟨size, a⟩) ⟨initialEntry currentFile, 0, false, []⟩).bytesRead +
            (feed (Reader.lines ⟨size, a⟩)
              ⟨initialEntry currentFile, 0, false, []⟩).currentEntry.bytesRead,
          (feed (Reader.lines ⟨size, a⟩)
            ⟨initialEntry currentFile, 0, false, []⟩).forceContinueEntry,
          ⟨size, []⟩⟩
        ((feed (Reader.lines ⟨size, a⟩) ⟨initialEntry currentFile, 0, false, []⟩).handled ++
          [(feed (Reader.lines ⟨size, a⟩)
            ⟨initialEntry currentFile, 0, false, []⟩).currentEntry]) := by
  have h := parseLinesLoop_eq_feed size hs a.length a (initialState currentFile ⟨size, a⟩) []
    (Nat.le_refl _) rfl (initialState_inv _ _)
  rw [parseLinesLoop_add]
  unfold Reader.lines
  rw [h]
  simp only [parseLinesLoop, initialState]
  unfold parseLinesStep
  rw [ReadLine_nil size (by omega)]
  rfl

/-! ## The number of entries (C7) -/

theorem delivered_append (l1 l2 : List ParseLogEntry) :
    delivered (l1 ++ l2) = delivered l1 ++ delivered l2 := by
  simp [delivered]

theorem delivered_singleton_of_ne (e : ParseLogEntry) (h : e.MessageLines ≠ []) :
    delivered [e] = [e] := by
  have : 0 < e.MessageLines.length := List.length_pos.mpr h
  simp [delivered, this]

theorem delivered_singleton_of_eq (e : ParseLogEntry) (h : e.MessageLines = []) :
    delivered [e] = [] := by
  simp [delivered, h]

theorem parseLine_unforced (cur : ParseLogEntry) (line : GoString) :
    parseLine cur line false =
      match entryLineRe line with
      | none =>
        some ⟨{ cur with MessageLines := cur.MessageLines ++ [line]
                         bytesRead := cur.bytesRead + (line.length + 1) },
              { cur with MessageLines := cur.MessageLines ++ [line]
                         bytesRead := cur.bytesRead + (line.length + 1) }, false⟩
      | some m =>
        some ⟨cur,
          { Severity := logEntrySeverityLevel m.severity
            Timestamp := logEntryTimestamp cur.Timestamp m.time
            ThreadId := m.threadId
            EntryPoint := m.entryPoint
            MessageLines := [m.message]
            LogFile := cur.LogFile
            bytesRead := line.length + 1 }, true⟩ := by
  unfold parseLine
  cases entryLineRe line <;> simp

theorem feedLine_count (f : Fed) (l : GoString × Bool) (hne : f.currentEntry.MessageLines ≠ []) :
    (feedLine f l).currentEntry.MessageLines ≠ [] ∧
    (feedLine f l).forceContinueEntry = l.2 ∧
    (delivered (feedLine f l).handled).length =
      (delivered f.handled).length +
        (if !f.forceContinueEntry && (entryLineRe l.1).isSome then 1 else 0) := by
  unfold feedLine
  cases hforce : f.forceContinueEntry with
  | true =>
    rw [parseLine_forced _ _ hne]
    simp
  | false =>
    rw [parseLine_unforced]
    cases hm : entryLineRe l.1 with
    | none => simp
    | some m =>
      simp [delivered_append, delivered_singleton_of_ne _ hne]

theorem feed_count (ls : List (GoString × Bool)) :
    ∀ f : Fed, f.currentEntry.MessageLines ≠ [] →
      (feed ls f).currentEntry.MessageLines ≠ [] ∧
      (delivered (feed ls f).handled).length =
        (delivered f.handled).length + headerCount f.forceContinueEntry ls := by
  induction ls with
  | nil => intro f h; exact ⟨h, by simp [feed, headerCount]⟩
  | cons l ls ih =>
    intro f h
    obtain ⟨h1, h2, h3⟩ := feedLine_count f l h
    obtain ⟨h4, h5⟩ := ih (feedLine f l) h1
    refine ⟨h4, ?_⟩
    have : feed (l :: ls) f = feed ls (feedLine f l) := rfl
    rw [this, h5, h3, h2]
    rcases l with ⟨line, isPrefix⟩
    simp only [headerCount]
    omega

theorem feed_initial_count (currentFile : LogFile) (ls : List (GoString × Bool)) :
    (delivered ((feed ls ⟨initialEntry currentFile, 0, false, []⟩).handled ++
        [(feed ls ⟨initialEntry currentFile, 0, false, []⟩).currentEntry])).length =
      headerCount false ls +
        (match ls with
         | [] => 0
         | (line, _) :: _ => if (entryLineRe line).isSome then 0 else 1) := by
  cases ls with
  | nil => simp [feed, headerCount, delivered, initialEntry]
  | cons l ls =>
    rcases l with ⟨line, isPrefix⟩
    have hfeed : feed ((line, isPrefix) :: ls) ⟨initialEntry currentFile, 0, false, []⟩ =
        feed ls (feedLine ⟨initialEntry currentFile, 0, false, []⟩ (line, isPrefix)) := rfl
    have hfirst : (feedLine ⟨initialEntry currentFile, 0, false, []⟩
          (line, isPrefix)).currentEntry.MessageLines ≠ [] ∧
        (feedLine ⟨initialEntry currentFile, 0, false, []⟩ (line, isPrefix)).forceContinueEntry
          = isPrefix ∧
        delivered (feedLine ⟨initialEntry currentFile, 0, false, []⟩ (line, isPrefix)).handled
          = [] := by
      unfold feedLine
      rw [parseLine_unforced]
      cases entryLineRe line with
      | none => simp [delivered]
      | some m => simp [delivered, initialEntry]
    obtain ⟨h1, h2, h3⟩ := hfirst
    obtain ⟨h4, h5⟩ := feed_count ls _ h1
    rw [hfeed, delivered_append, List.length_append, h5, h3, h2,
      delivered_singleton_of_ne _ h4]
    simp only [headerCount, List.length_nil, List.length_singleton, Bool.not_false,
      Bool.true_and]
    cases (entryLineRe line).isSome with
    | true => simp; omega
    | false => simp

/-- C7, counterexample.  On the stream `garbage`, then one header line, one of the two
lines matches the header pattern, and two entries with a message line are handed over
by the time the end of the stream has been handled once: the line before the first
header is an entry of its own. -/
theorem entry_count_counterexample :
    (NewReader "garbage\nI0101 10:00:00.000000 1 a.go:1] hello\n".toList).lines
      = [("garbage".toList, false), ("I0101 10:00:00.000000 1 a.go:1] hello".toList, false)] ∧
    headerCount false
      (NewReader "garbage\nI0101 10:00:00.000000 1 a.go:1] hello\n".toList).lines = 1 ∧
    (delivered (parseLinesLoop recorder 3
      (initialState sampleFile
        (NewReader "garbage\nI0101 10:00:00.000000 1 a.go:1] hello\n".toList)) []).handled).length
      = 2 := by
  decide

/-- C7, amended.  When the end of the stream has been handled once, the number of
entries with a message line that were handed to the handler is the number of lines
that are read unforced and match the header pattern, plus one when the stream has
content and its first line does not match.  Read unforced, a matching line starts a
new entry, and the loop hands the previous one to the handler; a line that does not
match is appended to the current entry. -/
theorem entry_count_is_header_count :
    (∀ (currentFile : LogFile) (data : GoString), ∃ st log,
      parseLinesLoop recorder ((NewReader data).lines.length + 1)
          (initialState currentFile (NewReader data)) [] = Outcome.running st log ∧
        st.reader.data = [] ∧
        (delivered log).length =
          headerCount false (NewReader data).lines +
            (match (NewReader data).lines with
             | [] => 0
             | (line, _) :: _ => if (entryLineRe line).isSome then 0 else 1)) ∧
    (∀ (cur : ParseLogEntry) (line : GoString),
      parseLine cur line false =
        match entryLineRe line with
        | none =>
          some ⟨{ cur with MessageLines := cur.MessageLines ++ [line]
                           bytesRead := cur.bytesRead + (line.length + 1) },
                { cur with MessageLines := cur.MessageLines ++ [line]
                           bytesRead := cur.bytesRead + (line.length + 1) }, false⟩
        | some m =>
          some ⟨cur,
            { Severity := logEntrySeverityLevel m.severity
              Timestamp := logEntryTimestamp cur.Timestamp m.time
              ThreadId := m.threadId
              EntryPoint := m.entryPoint
              MessageLines := [m.message]
              LogFile := cur.LogFile
              bytesRead := line.length + 1 }, true⟩) ∧
    (∀ (cur : ParseLogEntry) (bytes : Nat) (reader : Reader) (log : List ParseLogEntry)
        (line : GoString) (isPrefix : Bool) (r1 : Reader) (m : EntryMatch),
      reader.ReadLine = (⟨line, isPrefix, none⟩, r1) → entryLineRe line = some m →
      ∃ e, parseLinesStep recorder ⟨cur, bytes, false, reader⟩ log =
        Outcome.running ⟨e, bytes + cur.bytesRead, isPrefix, r1⟩ (log ++ [cur]) ∧
        e.MessageLines = [m.message]) := by
  refine ⟨?_, parseLine_unforced, ?_⟩
  · intro currentFile data
    refine ⟨_, _, parseLinesLoop_first_eof defaultBufSize (by decide) currentFile data, rfl, ?_⟩
    exact feed_initial_count currentFile _
  · intro cur bytes reader log line isPrefix r1 m hread hm
    refine ⟨{ Severity := logEntrySeverityLevel m.severity
              Timestamp := logEntryTimestamp cur.Timestamp m.time
              ThreadId := m.threadId
              EntryPoint := m.entryPoint
              MessageLines := [m.message]
              LogFile := cur.LogFile
              bytesRead := line.length + 1 }, ?_, rfl⟩
    unfold parseLinesStep
    simp only [hread, parseLine_unforced, hm, recorder]
    rfl

/-- C7, witness: the header line `I0101 10:00:00.000000 1 a.go:1] hello`, read after
the line `garbage`. -/
theorem entry_count_is_header_count_witness :
    ∃ e, parseLinesStep recorder
        ⟨{ initialEntry sampleFile with MessageLines := ["garbage".toList], bytesRead := 8 },
          0, false, NewReader "I0101 10:00:00.000000 1 a.go:1] hello\n".toList⟩ [] =
      Outcome.running ⟨e, 0 + 8, false, NewReader []⟩
        ([] ++ [{ initialEntry sampleFile with
                    MessageLines := ["garbage".toList], bytesRead := 8 }]) ∧
      e.MessageLines = ["hello".toList] :=
  entry_count_is_header_count.2.2
    { initialEntry sampleFile with MessageLines := ["garbage".toList], bytesRead := 8 }
    0 (NewReader "I0101 10:00:00.000000 1 a.go:1] hello\n".toList) []
    "I0101 10:00:00.000000 1 a.go:1] hello".toList false (NewReader [])
    ⟨"I".toList, "0101 10:00:00.000000".toList, "1".toList, "a.go:1".toList, "hello".toList⟩
    (by decide) (by decide)

/-! ## Resuming at a stored offset (C2) -/

theorem hasCRLF_suffix : ∀ (x y : GoString), hasCRLF (x ++ y) = false → hasCRLF y = false := by
  intro x
  induction x with
  | nil => intro y h; exact h
  | cons c x ih =>
    intro y h
    simp only [List.cons_append, hasCRLF, Bool.or_eq_false_iff] at h
    exact ih y h.2

theorem hasCRLF_drop (n : Nat) (a : GoString) (h : hasCRLF a = false) :
    hasCRLF (a.drop n) = false := by
  have := List.take_append_drop n a
  rw [← this] at h
  exact hasCRLF_suffix _ _ h

theorem getLast?_ne_cr_of_no_crlf : ∀ (x y : GoString),
    hasCRLF (x ++ '\n' :: y) = false → x.getLast? ≠ some '\r' := by
  intro x
  induction x with
  | nil => intro y _; simp
  | cons c x ih =>
    intro y h
    simp only [List.cons_append, hasCRLF, Bool.or_eq_false_iff] at h
    cases x with
    | nil =>
      simp only [List.getLast?_singleton, ne_eq, Option.some.injEq]
      intro hc
      subst hc
      simp at h
    | cons d x =>
      have := ih y h.2
      simpa [List.getLast?_cons_cons] using this

theorem dropWhile_ne_nl_of_mem : ∀ (x : GoString), '\n' ∈ x →
    ∃ t, x.dropWhile (fun c => c != '\n') = '\n' :: t := by
  intro x
  induction x with
  | nil => intro h; simp at h
  | cons c x ih =>
    intro h
    by_cases hc : c = '\n'
    · subst hc
      exact ⟨x, by simp [List.dropWhile_cons]⟩
    · have hx : '\n' ∈ x := by
        rcases List.mem_cons.mp h with h1 | h1
        · exact absurd h1.symm hc
        · exact h1
      obtain ⟨t, ht⟩ := ih hx
      exact ⟨t, by simp [List.dropWhile_cons, hc, ht]⟩

theorem mem_of_getLast? {a : GoString} {c : Char} (h : a.getLast? = some c) : c ∈ a :=
  List.mem_of_getLast?_eq_some h


/-- `ReadLine` on a stream `a ++ b`, where `a` ends with a line feed, reads within `a`
and leaves a rest of `a` that is empty or ends with a line feed; without `\r\n` in `a`
the bytes taken are those of the line, and one more for a complete line. -/
theorem ReadLine_append (size : Nat) (hs : 2 ≤ size) (a b : GoString)
    (ha : a.getLast? = some '\n') :
    ∃ line isPrefix a1,
      Reader.ReadLine ⟨size, a⟩ = (⟨line, isPrefix, none⟩, ⟨size, a1⟩) ∧
      Reader.ReadLine ⟨size, a ++ b⟩ = (⟨line, isPrefix, none⟩, ⟨size, a1 ++ b⟩) ∧
      a1.length < a.length ∧
      (a1 = [] ∨ a1.getLast? = some '\n') ∧
      (a1 = [] → isPrefix = false) ∧
      (hasCRLF a = false →
        a.length = line.length + (if isPrefix then 0 else 1) + a1.length ∧
          hasCRLF a1 = false) := by
  have hmem : '\n' ∈ a := List.mem_of_getLast?_eq_some ha
  have hane : a ≠ [] := List.ne_nil_of_mem hmem
  have hlen : 0 < a.length := List.length_pos.mpr hane
  have hlast : ∀ n, n < a.length → (a.drop n).getLast? = some '\n' := by
    intro n hn
    rw [List.getLast?_drop, if_neg (by omega), ha]
  by_cases hnl : '\n' ∈ a.take size
  · -- a complete line within the buffer
    have hk : ((a.take size).takeWhile (fun c => c != '\n')).length < (a.take size).length :=
      takeWhile_length_lt_of_mem _ _ hnl (by simp)
    have htl : (a.take size).length ≤ a.length := by
      rw [List.length_take]; omega
    have hhead : (a ++ b).take size = a.take size ++ b.take (size - a.length) :=
      List.take_append_eq_append_take
    have hnl2 : '\n' ∈ (a ++ b).take size := by
      rw [hhead]; exact List.mem_append_left _ hnl
    have htw : ((a ++ b).take size).takeWhile (fun c => c != '\n') =
        (a.take size).takeWhile (fun c => c != '\n') := by
      rw [hhead, List.takeWhile_append, if_neg (by omega)]
    refine ⟨dropCR ((a.take size).takeWhile (fun c => c != '\n')), false,
      a.drop (((a.take size).takeWhile (fun c => c != '\n')).length + 1), ?_, ?_, ?_, ?_, ?_, ?_⟩
    · unfold Reader.ReadLine
      simp only [hnl, if_true]
    · unfold Reader.ReadLine
      simp only [hnl2, if_true, htw]
      rw [List.drop_append_of_le_length (by omega)]
    · rw [List.length_drop]; omega
    · by_cases hd : a.length ≤ ((a.take size).takeWhile (fun c => c != '\n')).length + 1
      · left
        exact List.drop_eq_nil_of_le hd
      · right
        exact hlast _ (by omega)
    · intro _; rfl
    · intro hcr
      obtain ⟨t, ht⟩ := dropWhile_ne_nl_of_mem _ hnl
      have hsplit : a = (a.take size).takeWhile (fun c => c != '\n') ++ '\n' :: (t ++ a.drop size) := by
        have h1 := List.take_append_drop size a
        have h2 := List.takeWhile_append_dropWhile (fun c => c != '\n') (a.take size)
        rw [ht] at h2
        rw [← h2] at h1
        simpa [List.append_assoc] using h1.symm
      have hne : ((a.take size).takeWhile (fun c => c != '\n')).getLast? ≠ some '\r' := by
        apply getLast?_ne_cr_of_no_crlf _ (t ++ a.drop size)
        rw [← hsplit]; exact hcr
      refine ⟨?_, hasCRLF_drop _ _ hcr⟩
      simp only [dropCR, if_neg hne, Bool.false_eq_true, if_false, List.length_drop]
      omega
  · -- the buffer is full
    have hfull : size < a.length := by
      by_contra hcon
      have : a.take size = a := List.take_of_length_le (by omega)
      rw [this] at hnl
      exact hnl hmem
    have hhead : (a ++ b).take size = a.take size := List.take_append_of_le_length (by omega)
    have hfull1 : size ≤ a.length := by omega
    have hfull2 : size ≤ (a ++ b).length := by rw [List.length_append]; omega
    have htl : (a.take size).length = size := by rw [List.length_take]; omega
    by_cases hcr : (a.take size).getLast? = some '\r'
    · refine ⟨(a.take size).dropLast, true, a.drop (size - 1), ?_, ?_, ?_, ?_, ?_, ?_⟩
      · unfold Reader.ReadLine
        simp only [hnl, if_false, hfull1, if_true, hcr]
      · unfold Reader.ReadLine
        simp only [hhead, hnl, if_false, hfull2, if_true, hcr]
        rw [List.drop_append_of_le_length (by omega)]
      · rw [List.length_drop]; omega
      · right; exact hlast _ (by omega)
      · intro h
        have := congrArg List.length h
        rw [List.length_drop] at this
        simp at this
        omega
      · intro hc
        refine ⟨?_, hasCRLF_drop _ _ hc⟩
        simp only [if_true, List.length_dropLast, htl, List.length_drop]
        omega
    · refine ⟨a.take size, true, a.drop size, ?_, ?_, ?_, ?_, ?_, ?_⟩
      · unfold Reader.ReadLine
        simp only [hnl, if_false, hfull1, if_true, hcr]
      · unfold Reader.ReadLine
        simp only [hhead, hnl, if_false, hfull2, if_true, hcr]
        rw [List.drop_append_of_le_length (by omega)]
      · rw [List.length_drop]; omega
      · right; exact hlast _ (by omega)
      · intro h
        have := congrArg List.length h
        rw [List.length_drop] at this
        simp at this
        omega
      · intro hc
        refine ⟨?_, hasCRLF_drop _ _ hc⟩
        simp only [if_true, htl, List.length_drop]
        omega


theorem lines_nil (size : Nat) : Reader.lines ⟨size, []⟩ = [] := rfl

theorem lines_cons (size : Nat) (hs : 2 ≤ size) (a a1 line : GoString) (isPrefix : Bool)
    (h : Reader.ReadLine ⟨size, a⟩ = (⟨line, isPrefix, none⟩, ⟨size, a1⟩))
    (hlt : a1.length < a.length) :
    Reader.lines ⟨size, a⟩ = (line, isPrefix) :: Reader.lines ⟨size, a1⟩ := by
  obtain ⟨k, hk⟩ : ∃ k, a.length = k + 1 := ⟨a.length - 1, by omega⟩
  have h1 : Reader.lines ⟨size, a⟩ = readAll (k + 1) ⟨size, a⟩ := by
    unfold Reader.lines
    simp only [hk]
  rw [h1, readAll_cons _ _ _ _ _ _ h, readAll_eq_lines size hs k a1 (by omega)]

/-- The lines of `a ++ b` are those of `a`, then those of `b`, when `a` is empty or
ends with a line feed. -/
theorem lines_append (size : Nat) (hs : 2 ≤ size) (b : GoString) (n : Nat) :
    ∀ a : GoString, a.length ≤ n → (a = [] ∨ a.getLast? = some '\n') →
      Reader.lines ⟨size, a ++ b⟩ = Reader.lines ⟨size, a⟩ ++ Reader.lines ⟨size, b⟩ := by
  induction n with
  | zero =>
    intro a h _
    have : a = [] := List.length_eq_zero.mp (by omega)
    subst this
    simp [lines_nil]
  | succ n ih =>
    intro a h ha
    by_cases hnil : a = []
    · subst hnil
      simp [lines_nil]
    · have hlast : a.getLast? = some '\n' := by
        rcases ha with h1 | h1
        · exact absurd h1 hnil
        · exact h1
      obtain ⟨line, isPrefix, a1, hr, hrb, hlt, ha1, _, _⟩ := ReadLine_append size hs a b hlast
      rw [lines_cons size hs a a1 line isPrefix hr hlt,
        lines_cons size hs (a ++ b) (a1 ++ b) line isPrefix hrb
          (by simp only [List.length_append]; omega),
        ih a1 (by omega) ha1]
      rfl

theorem feed_append (l1 l2 : List (GoString × Bool)) (f : Fed) :
    feed (l1 ++ l2) f = feed l2 (feed l1 f) := by
  simp [feed, List.foldl_append]

theorem feed_cons (l : GoString × Bool) (ls : List (GoString × Bool)) (f : Fed) :
    feed (l :: ls) f = feed ls (feedLine f l) := rfl

theorem feedLine_bytes (f : Fed) (line : GoString) (isPrefix : Bool) (hinv : FedInv f) :
    (feedLine f (line, isPrefix)).bytesRead + (feedLine f (line, isPrefix)).currentEntry.bytesRead
        + (if f.forceContinueEntry then 1 else 0)
      = f.bytesRead + f.currentEntry.bytesRead + line.length + 1 ∧
    (feedLine f (line, isPrefix)).forceContinueEntry = isPrefix := by
  unfold feedLine
  cases hforce : f.forceContinueEntry with
  | true =>
    rw [parseLine_forced _ _ (hinv hforce)]
    simp
    omega
  | false =>
    simp only [parseLine_unforced]
    cases entryLineRe line with
    | none => simp; omega
    | some m => simp; omega

/-- Without `\r\n`, the bytes counted for the lines of a stream that ends with a line
feed are the bytes of the stream. -/
theorem feed_bytes (size : Nat) (hs : 2 ≤ size) (n : Nat) :
    ∀ (a : GoString) (f : Fed), a.length ≤ n → (a = [] ∨ a.getLast? = some '\n') →
      hasCRLF a = false → FedInv f →
      (feed (Reader.lines ⟨size, a⟩) f).bytesRead
          + (feed (Reader.lines ⟨size, a⟩) f).currentEntry.bytesRead
          + (if f.forceContinueEntry then 1 else 0)
        = f.bytesRead + f.currentEntry.bytesRead + a.length
          + (if (feed (Reader.lines ⟨size, a⟩) f).forceContinueEntry then 1 else 0) ∧
      (a ≠ [] → (feed (Reader.lines ⟨size, a⟩) f).forceContinueEntry = false) := by
  induction n with
  | zero =>
    intro a f h _ _ _
    have : a = [] := List.length_eq_zero.mp (by omega)
    subst this
    simp [lines_nil, feed]
  | succ n ih =>
    intro a f h ha hcr hinv
    by_cases hnil : a = []
    · subst hnil
      simp [lines_nil, feed]
    · have hlast : a.getLast? = some '\n' := by
        rcases ha with h1 | h1
        · exact absurd h1 hnil
        · exact h1
      obtain ⟨line, isPrefix, a1, hr, _, hlt, ha1, hip, hbytes⟩ :=
        ReadLine_append size hs a [] hlast
      obtain ⟨hlen, hcr1⟩ := hbytes hcr
      obtain ⟨hb1, hf1⟩ := feedLine_bytes f line isPrefix hinv
      obtain ⟨hb2, hf2⟩ := ih a1 (feedLine f (line, isPrefix)) (by omega) ha1 hcr1
        (feedLine_inv f _ hinv)
      rw [lines_cons size hs a a1 line isPrefix hr hlt, feed_cons]
      rw [hf1] at hb2
      constructor
      · cases hfc : f.forceContinueEntry <;> cases hi : isPrefix <;>
          simp only [hfc, hi, if_true, if_false, Bool.false_eq_true] at hb1 hb2 hlen ⊢ <;> omega
      · intro _
        by_cases h1 : a1 = []
        · subst h1
          simp only [lines_nil, feed, List.foldl_nil]
          rw [hf1]
          exact hip rfl
        · exact hf2 h1

theorem feedLine_shift (f : Fed) (l : GoString × Bool) (bytes : Nat) (log : List ParseLogEntry) :
    feedLine ⟨f.currentEntry, bytes + f.bytesRead, f.forceContinueEntry, log ++ f.handled⟩ l =
      ⟨(feedLine f l).currentEntry, bytes + (feedLine f l).bytesRead,
        (feedLine f l).forceContinueEntry, log ++ (feedLine f l).handled⟩ := by
  unfold feedLine
  simp only []
  cases parseLine f.currentEntry l.1 f.forceContinueEntry with
  | none => rfl
  | some r =>
    rcases r with ⟨c, e, b⟩
    cases b <;> simp [Nat.add_assoc]

theorem feed_shift (ls : List (GoString × Bool)) :
    ∀ (f : Fed) (bytes : Nat) (log : List ParseLogEntry),
    feed ls ⟨f.currentEntry, bytes + f.bytesRead, f.forceContinueEntry, log ++ f.handled⟩ =
      ⟨(feed ls f).currentEntry, bytes + (feed ls f).bytesRead,
        (feed ls f).forceContinueEntry, log ++ (feed ls f).handled⟩ := by
  induction ls with
  | nil => intro f bytes log; rfl
  | cons l ls ih =>
    intro f bytes log
    rw [feed_cons, feed_cons, feedLine_shift, ih]

theorem feedLine_logFile (f : Fed) (l : GoString × Bool) :
    (feedLine f l).currentEntry.LogFile = f.currentEntry.LogFile := by
  unfold feedLine
  cases hp : parseLine f.currentEntry l.1 f.forceContinueEntry with
  | none => rfl
  | some r =>
    unfold parseLine at hp
    split at hp
    · split at hp
      · simp at hp
      · simp at hp; subst hp; simp
    · split at hp
      · simp at hp; subst hp; simp
      · simp at hp; subst hp; simp

theorem feed_logFile (ls : List (GoString × Bool)) :
    ∀ f : Fed, (feed ls f).currentEntry.LogFile = f.currentEntry.LogFile := by
  induction ls with
  | nil => intro f; rfl
  | cons l ls ih => intro f; rw [feed_cons, ih, feedLine_logFile]

/-- The entries handed over for the lines `la` followed by a header line and the lines
`lb` are those for `la`, with the end of the stream after them, followed by those for
the header line and `lb` alone, when the header gets the same timestamp from the
reference date as from the entry before it. -/
theorem feed_resume (currentFile : LogFile) (la lb : List (GoString × Bool))
    (line : GoString) (isPrefix : Bool) (m : EntryMatch)
    (hforce : (feed la ⟨initialEntry currentFile, 0, false, []⟩).forceContinueEntry = false)
    (hm : entryLineRe line = some m)
    (hts : logEntryTimestamp
        (feed la ⟨initialEntry currentFile, 0, false, []⟩).currentEntry.Timestamp m.time =
      logEntryTimestamp currentFile.FileDate m.time) :
    delivered
        ((feed ((line, isPrefix) :: lb)
            (feed la ⟨initialEntry currentFile, 0, false, []⟩)).handled ++
          [(feed ((line, isPrefix) :: lb)
            (feed la ⟨initialEntry currentFile, 0, false, []⟩)).currentEntry]) =
      delivered
        ((feed la ⟨initialEntry currentFile, 0, false, []⟩).handled ++
          [(feed la ⟨initialEntry currentFile, 0, false, []⟩).currentEntry]) ++
      delivered
        ((feed ((line, isPrefix) :: lb) ⟨initialEntry currentFile, 0, false, []⟩).handled ++
          [(feed ((line, isPrefix) :: lb)
            ⟨initialEntry currentFile, 0, false, []⟩).currentEntry]) := by
  generalize hfa : feed la ⟨initialEntry currentFile, 0, false, []⟩ = fa at *
  have hlf : fa.currentEntry.LogFile = currentFile := by
    rw [← hfa, feed_logFile]; rfl
  -- the entry the header line starts
  generalize hnew : ({ Severity := logEntrySeverityLevel m.severity
                       Timestamp := logEntryTimestamp currentFile.FileDate m.time
                       ThreadId := m.threadId
                       EntryPoint := m.entryPoint
                       MessageLines := [m.message]
                       LogFile := currentFile
                       bytesRead := line.length + 1 } : ParseLogEntry) = new
  have h1 : feedLine fa (line, isPrefix) =
      ⟨new, fa.bytesRead + fa.currentEntry.bytesRead, isPrefix,
        fa.handled ++ [fa.currentEntry]⟩ := by
    unfold feedLine
    simp only [hforce, parseLine_unforced, hm, hts, hlf, if_true, hnew]
  have h0 : feedLine ⟨initialEntry currentFile, 0, false, []⟩ (line, isPrefix) =
      ⟨new, 0, isPrefix, [initialEntry currentFile]⟩ := by
    unfold feedLine
    simp only [parseLine_unforced, hm, if_true]
    rw [← hnew]
    rfl
  have hs1 := feed_shift lb ⟨new, 0, isPrefix, []⟩ (fa.bytesRead + fa.currentEntry.bytesRead)
    (fa.handled ++ [fa.currentEntry])
  have hs0 := feed_shift lb ⟨new, 0, isPrefix, []⟩ 0 [initialEntry currentFile]
  simp only [Nat.add_zero, List.append_nil] at hs1 hs0
  rw [feed_cons, feed_cons, h1, h0, hs1, hs0]
  simp only [delivered_append, List.append_assoc]
  rw [delivered_singleton_of_eq (initialEntry currentFile) rfl]
  simp

/-- C2, amended.  Let `a` be empty or end with a line feed, without `\r\n` in it, and
let `b` begin with a line that matches the header pattern and gets the same timestamp
from the reference date of the file as from the last entry of `a`.  When the end of the
stream has been handled once, the byte count for `a` is the length of `a`, and the
entries with a message line handed over for `a ++ b` are those handed over for `a`,
followed by those handed over when `a ++ b` is parsed again from that byte count. -/
theorem resume_at_header_line (currentFile : LogFile) (a b line : GoString)
    (isPrefix : Bool) (rest : Reader) (m : EntryMatch) (sta : LoopState)
    (loga : List ParseLogEntry)
    (ha : a = [] ∨ a.getLast? = some '\n') (hcr : hasCRLF a = false)
    (hb : (NewReader b).ReadLine = (⟨line, isPrefix, none⟩, rest))
    (hm : entryLineRe line = some m)
    (hpa : parseLinesLoop recorder ((NewReader a).lines.length + 1)
      (initialState currentFile (NewReader a)) [] = Outcome.running sta loga)
    (hts : logEntryTimestamp sta.currentEntry.Timestamp m.time =
      logEntryTimestamp currentFile.FileDate m.time) :
    sta.bytesRead = a.length ∧
    ∃ st log stb logb,
      parseLinesLoop recorder ((NewReader (a ++ b)).lines.length + 1)
        (initialState currentFile (NewReader (a ++ b))) [] = Outcome.running st log ∧
      parseLinesLoop recorder (((NewReader (a ++ b)).Discard sta.bytesRead).lines.length + 1)
        (initialState currentFile ((NewReader (a ++ b)).Discard sta.bytesRead)) []
          = Outcome.running stb logb ∧
      delivered log = delivered loga ++ delivered logb := by
  have hs : 2 ≤ defaultBufSize := by decide
  have hNew : ∀ x : GoString, NewReader x = ⟨defaultBufSize, x⟩ := fun _ => rfl
  simp only [hNew] at hb hpa ⊢
  rw [parseLinesLoop_first_eof defaultBufSize hs currentFile a] at hpa
  injection hpa with h1 h2
  subst h1 h2
  simp only at hts ⊢
  -- the byte count of the first part
  have hinv0 : FedInv ⟨initialEntry currentFile, 0, false, []⟩ := by
    intro h; simp at h
  obtain ⟨hbytes, hforce⟩ := feed_bytes defaultBufSize hs a.length a
    ⟨initialEntry currentFile, 0, false, []⟩ (Nat.le_refl _) ha hcr hinv0
  have hforce0 : (feed (Reader.lines ⟨defaultBufSize, a⟩)
      ⟨initialEntry currentFile, 0, false, []⟩).forceContinueEntry = false := by
    by_cases hnil : a = []
    · subst hnil; rfl
    · exact hforce hnil
  have hlen : (feed (Reader.lines ⟨defaultBufSize, a⟩)
        ⟨initialEntry currentFile, 0, false, []⟩).bytesRead +
      (feed (Reader.lines ⟨defaultBufSize, a⟩)
        ⟨initialEntry currentFile, 0, false, []⟩).currentEntry.bytesRead = a.length := by
    rw [hforce0] at hbytes
    simpa [initialEntry] using hbytes
  refine ⟨hlen, ?_⟩
  -- the first line of the second part
  have hbne : b ≠ [] := by
    intro h
    subst h
    rw [ReadLine_nil _ (by omega)] at hb
    simp at hb
  obtain ⟨line1, ip1, b1, hrb, hlt⟩ := ReadLine_progress defaultBufSize b hs hbne
  rw [hrb] at hb
  simp only [Prod.mk.injEq, ReadLineResult.mk.injEq, and_true] at hb
  obtain ⟨⟨hl, hi⟩, _⟩ := hb
  subst hl hi
  have hlb := lines_cons defaultBufSize hs b b1 line1 ip1 hrb hlt
  have hlab := lines_append defaultBufSize hs b a.length a (Nat.le_refl _) ha
  have hdrop : (Reader.mk defaultBufSize (a ++ b)).Discard a.length = ⟨defaultBufSize, b⟩ := by
    simp [Reader.Discard]
  rw [hlen, hdrop]
  refine ⟨_, _, _, _, parseLinesLoop_first_eof defaultBufSize hs currentFile (a ++ b),
    parseLinesLoop_first_eof defaultBufSize hs currentFile b, ?_⟩
  rw [hlab, feed_append, hlb]
  exact feed_resume currentFile _ _ line1 ip1 m hforce0 hm hts


/-- C2, counterexample.  The stream is a header line and a continuation line, split
between the two.  Parsing the first part hands over the entry `hello` and counts 38
bytes; parsing again from byte 38 hands over an entry of the initial accumulator with
the line `  world`; parsing the whole stream hands over one entry with both lines. -/
theorem resume_mid_entry_counterexample :
    parseLinesLoop recorder 2
        (initialState sampleFile (NewReader "I0101 10:00:00.000000 1 a.go:1] hello\n".toList)) []
      = Outcome.running
          ⟨⟨"INFO".toList, ⟨2019, 1, 1, 10, 0, 0, 0, 0⟩, "1".toList, "a.go:1".toList,
              ["hello".toList], sampleFile, 38⟩, 38, false, NewReader []⟩
          [initialEntry sampleFile,
            ⟨"INFO".toList, ⟨2019, 1, 1, 10, 0, 0, 0, 0⟩, "1".toList, "a.go:1".toList,
              ["hello".toList], sampleFile, 38⟩] ∧
    delivered (parseLinesLoop recorder 3
        (initialState sampleFile
          (NewReader ("I0101 10:00:00.000000 1 a.go:1] hello\n".toList ++ "  world\n".toList)))
        []).handled
      = [⟨"INFO".toList, ⟨2019, 1, 1, 10, 0, 0, 0, 0⟩, "1".toList, "a.go:1".toList,
          ["hello".toList, "  world".toList], sampleFile, 46⟩] ∧
    delivered (parseLinesLoop recorder 2
        (initialState sampleFile
          ((NewReader ("I0101 10:00:00.000000 1 a.go:1] hello\n".toList
            ++ "  world\n".toList)).Discard 38)) []).handled
      = [{ initialEntry sampleFile with MessageLines := ["  world".toList], bytesRead := 8 }] ∧
    delivered (parseLinesLoop recorder 3
        (initialState sampleFile
          (NewReader ("I0101 10:00:00.000000 1 a.go:1] hello\n".toList ++ "  world\n".toList)))
        []).handled
      ≠ delivered (parseLinesLoop recorder 2
          (initialState sampleFile
            (NewReader "I0101 10:00:00.000000 1 a.go:1] hello\n".toList)) []).handled
        ++ delivered (parseLinesLoop recorder 2
          (initialState sampleFile
            ((NewReader ("I0101 10:00:00.000000 1 a.go:1] hello\n".toList
              ++ "  world\n".toList)).Discard 38)) []).handled := by
  decide

/-- C2, witness: the stream of two entries `hello`, `  world` and `bye`, split before
the second header line. -/
theorem resume_at_header_line_witness :
    (46 : Nat) = ("I0101 10:00:00.000000 1 a.go:1] hello\n  world\n".toList).length ∧
    ∃ st log stb logb,
      parseLinesLoop recorder
        ((NewReader ("I0101 10:00:00.000000 1 a.go:1] hello\n  world\n".toList ++
          "I0101 10:00:01.000000 1 a.go:2] bye\n".toList)).lines.length + 1)
        (initialState sampleFile
          (NewReader ("I0101 10:00:00.000000 1 a.go:1] hello\n  world\n".toList ++
            "I0101 10:00:01.000000 1 a.go:2] bye\n".toList))) [] = Outcome.running st log ∧
      parseLinesLoop recorder
        (((NewReader ("I0101 10:00:00.000000 1 a.go:1] hello\n  world\n".toList ++
          "I0101 10:00:01.000000 1 a.go:2] bye\n".toList)).Discard 46).lines.length + 1)
        (initialState sampleFile
          ((NewReader ("I0101 10:00:00.000000 1 a.go:1] hello\n  world\n".toList ++
            "I0101 10:00:01.000000 1 a.go:2] bye\n".toList)).Discard 46)) []
          = Outcome.running stb logb ∧
      delivered log =
        delivered [initialEntry sampleFile,
          ⟨"INFO".toList, ⟨2019, 1, 1, 10, 0, 0, 0, 0⟩, "1".toList, "a.go:1".toList,
            ["hello".toList, "  world".toList], sampleFile, 46⟩] ++ delivered logb :=
  resume_at_header_line sampleFile
    "I0101 10:00:00.000000 1 a.go:1] hello\n  world\n".toList
    "I0101 10:00:01.000000 1 a.go:2] bye\n".toList
    "I0101 10:00:01.000000 1 a.go:2] bye".toList false (NewReader [])
    ⟨"I".toList, "0101 10:00:01.000000".toList, "1".toList, "a.go:2".toList, "bye".toList⟩
    ⟨⟨"INFO".toList, ⟨2019, 1, 1, 10, 0, 0, 0, 0⟩, "1".toList, "a.go:1".toList,
        ["hello".toList, "  world".toList], sampleFile, 46⟩, 46, false, NewReader []⟩
    [initialEntry sampleFile,
      ⟨"INFO".toList, ⟨2019, 1, 1, 10, 0, 0, 0, 0⟩, "1".toList, "a.go:1".toList,
        ["hello".toList, "  world".toList], sampleFile, 46⟩]
    (by decide) (by decide) (by decide) (by decide) (by decide) (by decide)

end Filebeat
